import Mathlib

/-!
Shallow embedding of the tokex regex-to-DFA engine (tokex.hpp,
expression.hpp, regex.hpp and the regex-lexer adapter), instantiated at
the character alphabet `TokexChar` from regex.hpp.

Modelling conventions:
* heap nodes become entries of an association list `store` indexed by
  allocation order (`Nat` ids); `create_node` appends a fresh id, as the
  C++ `create_node` allocates and registers a node in `allNodes`;
* a `Node*` is `Option Nat`, with `none` for the null pointer;
* `std::map` transition tables become key-sorted association lists with
  unique keys (`mapInsert` keeps them sorted, matching map iteration
  order);
* iteration over a `std::set` of node pointers is modelled as iteration
  in ascending id (allocation) order;
* undefined behaviour of the source (null dereference, out-of-bounds
  vector read, `front()` on an empty vector, a failed `assert`) and a
  thrown `std::runtime_error` are both modelled as `none` of an
  `Option` result;
* unbounded loops receive explicit fuel; exhausting the fuel also yields
  `none`.
-/

namespace Tokex2Proof

/-- Node classification from expression.hpp (`end` is a Lean keyword, so
the terminal good state is spelled `end_`). -/
inductive NodeType where
  | normal
  | scripting
  | end_
  | error
deriving DecidableEq, Repr

/-- `state_to_bool` from expression.hpp: true iff the machine finished in
the terminal good state. -/
def state_to_bool (state : NodeType) : Bool :=
  state = NodeType.end_

/-- The epsilon token of the `TokexChar` alphabet from regex.hpp. -/
def epsC : Char := Char.ofNat 0

/-- The wildcard token of the `TokexChar` alphabet from regex.hpp. -/
def wildC : Char := '.'

/-- TokexChar classifier: opening subexpression token. -/
def is_subexpr_open (c : Char) : Bool := c = '('

/-- TokexChar classifier: closing subexpression token. -/
def is_subexpr_close (c : Char) : Bool := c = ')'

/-- TokexChar classifier: alternation token. -/
def is_disjunction (c : Char) : Bool := c = '|'

/-- TokexChar classifier: wildcard token. -/
def is_wildcard (c : Char) : Bool := c = '.'

/-- TokexChar classifier: postfix optional token. -/
def is_optional (c : Char) : Bool := c = '?'

/-- TokexChar classifier: postfix Kleene star token. -/
def is_star (c : Char) : Bool := c = '*'

/-- TokexChar classifier: postfix plus token. -/
def is_plus (c : Char) : Bool := c = '+'

/-- TokexChar classifier: escape token. -/
def is_escape (c : Char) : Bool := c = '\\'

/-- TokexChar classifier: epsilon token. -/
def is_epsilon (c : Char) : Bool := c = epsC

/-- Transition table of one node: key-sorted association list from tokens
to transition targets (a target `none` is the dangling null sentinel). -/
abbrev EdgeMap := List (Char × Option Nat)

/-- Lookup in a transition table, as `std::map::operator[]` reads (but
without inserting). Returns `none` when the key is absent. -/
def mapFind (k : Char) : EdgeMap → Option (Option Nat)
  | [] => none
  | (k', v) :: rest => if k = k' then some v else mapFind k rest

/-- Membership test on a transition table (`std::map::contains`). -/
def mapContains (k : Char) (m : EdgeMap) : Bool :=
  (mapFind k m).isSome

/-- Write through `std::map::operator[]`: replace the value at the key or
insert it in key-sorted position. -/
def mapInsert (k : Char) (v : Option Nat) : EdgeMap → EdgeMap
  | [] => [(k, v)]
  | (k', v') :: rest =>
    if k < k' then (k, v) :: (k', v') :: rest
    else if k = k' then (k, v) :: rest
    else (k', v') :: mapInsert k v rest

/-- Erase a key from a transition table (`std::map::erase`). -/
def mapErase (k : Char) : EdgeMap → EdgeMap
  | [] => []
  | (k', v') :: rest =>
    if k = k' then rest else (k', v') :: mapErase k rest

/-- One automaton node, mirroring `Node<T>` of expression.hpp. -/
structure NodeData where
  ty : NodeType := NodeType.normal
  next : EdgeMap := []
  script : List Char := []
deriving DecidableEq, Repr

/-- The engine state, mirroring the fields of `Tokex<T>` in tokex.hpp.
The heap is modelled by `store` (allocation id to node). `allNodes` is
the owning set of tokex.hpp, kept as the list of ids in insertion
order. -/
structure Tokex where
  store : List (Nat × NodeData) := []
  nextId : Nat := 0
  beginning : Option Nat := none
  allNodes : List Nat := []
deriving DecidableEq, Repr

/-- Find the node stored under an id (first matching entry). -/
def storeGet (i : Nat) : List (Nat × NodeData) → Option NodeData
  | [] => none
  | (k, v) :: rest => if i = k then some v else storeGet i rest

/-- Dereference a node id (the node is present for every id a reachable
program state ever stores; a missing id yields the default node). -/
def getNode (st : Tokex) (i : Nat) : NodeData :=
  match storeGet i st.store with
  | some n => n
  | none => {}

/-- Replace the node stored under an id in a heap, leaving every other
entry alone (the in-place mutation of one allocated node). -/
def storeSet (j : Nat) (nd : NodeData) : List (Nat × NodeData) → List (Nat × NodeData)
  | [] => []
  | (k, v) :: rest => (if k = j then (j, nd) else (k, v)) :: storeSet j nd rest

/-- Overwrite the node stored at an id. -/
def setNode (st : Tokex) (i : Nat) (nd : NodeData) : Tokex :=
  { st with store := storeSet i nd st.store }

/-- Replace the transition table of a node value. -/
def withEdge (k : Char) (v : Option Nat) (n : NodeData) : NodeData :=
  { n with next := mapInsert k v n.next }

/-- Write one transition of one node (`node->next[k] = v`). -/
def setEdge (st : Tokex) (i : Nat) (k : Char) (v : Option Nat) : Tokex :=
  setNode st i (withEdge k v (getNode st i))

/-- Drop one key from the transition table of a node value. -/
def withoutEdge (k : Char) (n : NodeData) : NodeData :=
  { n with next := mapErase k n.next }

/-- Erase one transition of one node (`node->next.erase(k)`). -/
def eraseEdge (st : Tokex) (i : Nat) (k : Char) : Tokex :=
  setNode st i (withoutEdge k (getNode st i))

/-- Replace the type of a node value. -/
def withType (t : NodeType) (n : NodeData) : NodeData :=
  { n with ty := t }

/-- Overwrite the type of one node (`node->type = t`). -/
def setType (st : Tokex) (i : Nat) (t : NodeType) : Tokex :=
  setNode st i (withType t (getNode st i))

/-- `Tokex::create_node`: allocate a fresh node, register it in the
owning node set, and return its id. -/
def create_node (st : Tokex) : Tokex × Nat :=
  ({ st with
      store := st.store ++ [(st.nextId, {})]
      nextId := st.nextId + 1
      allNodes := st.allNodes ++ [st.nextId] },
    st.nextId)

/-- `Tokex::run` on one token: exact key first, then the wildcard key,
then (only when allowed) the epsilon key, else the null sink. -/
def runStep (st : Tokex) (current : Option Nat) (input : Char)
    (allow_epsilons : Bool) : Option Nat :=
  match current with
  | none => none
  | some i =>
    let n := getNode st i
    match mapFind input n.next with
    | some t => t
    | none =>
      match mapFind wildC n.next with
      | some t => t
      | none =>
        if allow_epsilons then
          match mapFind epsC n.next with
          | some t => t
          | none => none
        else none

/-- `Tokex::run` on a token sequence: fold `runStep` over the input. -/
def runList (st : Tokex) (current : Option Nat) (input : List Char)
    (allow_epsilons : Bool) : Option Nat :=
  input.foldl (fun cur c => runStep st cur c allow_epsilons) current

/-- `Tokex::get_state`: a null current pointer reads as `error`,
otherwise the current node's type. -/
def get_state (st : Tokex) (current : Option Nat) : NodeType :=
  match current with
  | none => NodeType.error
  | some i => (getNode st i).ty

/-- `Tokex::match`: reset to the entry, run the input with epsilons
disallowed, and test the final state. -/
def matchT (st : Tokex) (input : List Char) : Bool :=
  state_to_bool (get_state st (runList st st.beginning input false))

/-- Breadth-first collection loop of `Tokex::get_all_nodes`. The visited
list `out` doubles as order of first visit; a null pointer contributes no
edges. Fuel bounds the loop; with the fuel used by the callers it never
runs out. -/
def ganLoop (fuel : Nat) (st : Tokex) (out : List (Option Nat)) :
    List (Option Nat) → List (Option Nat)
  | [] => out
  | c :: queue =>
    match fuel with
    | 0 => out
    | fuel + 1 =>
      match c with
      | none => ganLoop fuel st out queue
      | some cid =>
        let step := (getNode st cid).next.foldl
          (fun (acc : List (Option Nat) × List (Option Nat)) e =>
            if acc.1.contains e.2 then acc
            else (acc.1 ++ [e.2], acc.2 ++ [e.2]))
          (out, queue)
        ganLoop fuel st step.1 step.2

/-- Fuel that always suffices for the breadth-first walks: one step per
queue entry, and at most one queue entry per edge plus the seed. -/
def ganFuel (st : Tokex) : Nat :=
  1 + st.store.foldl (fun acc p => acc + p.2.next.length) 0

/-- `Tokex::get_all_nodes`: all nodes reachable from the entry, in
breadth-first order, starting with the entry itself. -/
def get_all_nodes (st : Tokex) : List (Option Nat) :=
  ganLoop (ganFuel st) st [st.beginning] [st.beginning]

/-- `Tokex::has_epsilons`: true iff some reachable node still carries an
epsilon-keyed transition. -/
def has_epsilons (st : Tokex) : Bool :=
  (get_all_nodes st).any fun n =>
    match n with
    | none => false
    | some i => mapContains epsC (getNode st i).next

/-- `Tokex::purge`: drop from the owning node set every node that the
breadth-first walk from the entry does not reach. Nodes themselves are
not modified. -/
def purge (st : Tokex) : Tokex :=
  let reachable := get_all_nodes st
  { st with allNodes := st.allNodes.filter fun i => reachable.contains (some i) }

end Tokex2Proof

namespace Tokex2Proof

/-! Fragment algebra: knit, suit, duplicate (expression.hpp, tokex.hpp).
Loops over a node's `std::map` of edges are modelled on the snapshot of
the edge list taken at loop entry. During `knit_recursive` the only
in-place changes are dangling (null) values being set to the knit
target, and re-applying that write from a stale snapshot produces the
same state, so the snapshot model agrees with iterating the live map. -/

/-- Edge loop of `knit_recursive`: rewrite dangling edges of `cur` to
`target`, descending into unvisited non-null targets. `visited` is the
by-reference visited set threaded through the recursion. The fuel
decreases on every step so that the recursion is structural. -/
def knit_edges (fuel : Nat) (st : Tokex) (target : Option Nat) (cur : Nat)
    (visited : List (Option Nat)) (edges : List (Char × Option Nat)) :
    Option (Tokex × List (Option Nat)) :=
  match fuel with
  | 0 => none
  | fuel + 1 =>
    match edges with
    | [] => some (st, visited)
    | (k, tgt) :: rest =>
      match tgt with
      | none => knit_edges fuel (setEdge st cur k target) target cur visited rest
      | some nid =>
        if visited.contains (some nid) then
          knit_edges fuel st target cur visited rest
        else
          match knit_edges fuel st target nid (some nid :: visited)
              ((getNode st nid).next) with
          | none => none
          | some (st', visited') => knit_edges fuel st' target cur visited' rest

/-- `Expression::knit_other_onto_end`: rewrite every dangling edge
reachable from `selfFirst` to point at `otherFirst`, with the visited
set seeded with `otherFirst`. -/
def knit_other_onto_end (fuel : Nat) (st : Tokex) (selfFirst otherFirst : Option Nat) :
    Option Tokex :=
  match selfFirst with
  | none => none
  | some f =>
    match knit_edges fuel st otherFirst f [otherFirst] ((getNode st f).next) with
    | none => none
    | some (st', _) => some st'

/-- The `while (cur->next.contains(epsilon))` walk shared by
`suit_add_recursive` and `close_node`: follow epsilon edges from `cur`
to their terminus. An epsilon edge to null makes the next loop test
dereference null. -/
def epsTerminus (fuel : Nat) (st : Tokex) (cur : Nat) : Option Nat :=
  match fuel with
  | 0 => none
  | fuel + 1 =>
    match mapFind epsC (getNode st cur).next with
    | none => some cur
    | some none => none
    | some (some nxt) => epsTerminus fuel st nxt

/-- Edge loop of `suit_add_recursive` over the snapshot of the edges of
`_theirs`, with `mine` the current node of the accumulating fragment.
The three early `return` statements of the source end the whole call. -/
def suit_edges (fuel : Nat) (st : Tokex) (mine : Nat)
    (edges : List (Char × Option Nat)) : Option Tokex :=
  match fuel with
  | 0 => none
  | fuel + 1 =>
    match edges with
    | [] => some st
    | (k, o) :: rest =>
      match mapFind k (getNode st mine).next with
      | none => some (setEdge st mine k o)
      | some m =>
        if m = none && o = none then
          some st
        else if m.isNone || o.isNone then
          match epsTerminus fuel st mine with
          | none => none
          | some cur => some (setEdge st cur epsC o)
        else
          match m, o with
          | some m', some o' =>
            match suit_edges fuel st m' ((getNode st o').next) with
            | none => none
            | some st' => suit_edges fuel st' mine rest
          | _, _ => none

/-- `suit_add_recursive` / `Expression::add_other_as_suit`. -/
def suit_add_recursive (fuel : Nat) (st : Tokex) (mine theirs : Nat) : Option Tokex :=
  suit_edges fuel st mine ((getNode st theirs).next)

/-- Lookup in the old-to-new clone map of `duplicate_expression` (the
`std::map` keyed by the original node pointer). -/
def alistGet (x : Option Nat) : List (Option Nat × Option Nat) → Option (Option Nat)
  | [] => none
  | (k, v) :: rest => if x = k then some v else alistGet x rest

/-- Allocation step of `duplicate_expression`: allocate the clone of one
discovered node and copy its type and script onto it. Returns the new
state and the clone's id. -/
def dupVisit (st : Tokex) (cid : Nat) : Tokex × Nat :=
  let p := create_node st
  let old := getNode st cid
  (setNode p.1 p.2 { getNode p.1 p.2 with ty := old.ty, script := old.script }, p.2)

/-- First phase of `Tokex::duplicate_expression`: breadth-first walk
mapping every discovered node (null included) to a fresh clone carrying
the same type and script. The association list `o2n` records the map in
discovery order. -/
def dupPhase1 (fuel : Nat) (st : Tokex) (o2n : List (Option Nat × Option Nat))
    (queue : List (Option Nat)) : Option (Tokex × List (Option Nat × Option Nat)) :=
  match fuel with
  | 0 => none
  | fuel + 1 =>
    match queue with
    | [] => some (st, o2n)
    | cur :: queue' =>
      if (alistGet cur o2n).isSome then dupPhase1 fuel st o2n queue'
      else
        match cur with
        | none => dupPhase1 fuel st (o2n ++ [(none, none)]) queue'
        | some cid =>
          dupPhase1 fuel (dupVisit st cid).1 (o2n ++ [(some cid, some (dupVisit st cid).2)])
            (queue' ++ (getNode st cid).next.map (·.2))

/-- Second phase of `Tokex::duplicate_expression`, inner edge loop: copy
the edges of one original node onto its clone, mapping each target
through the old-to-new map (the source asserts that the map contains
every target). -/
def dupEdges (st : Tokex) (o2n : List (Option Nat × Option Nat)) (nid : Nat) :
    List (Char × Option Nat) → Option Tokex
  | [] => some st
  | (k, t) :: rest =>
    match alistGet t o2n with
    | none => none
    | some newT => dupEdges (setEdge st nid k newT) o2n nid rest

/-- Second phase of `Tokex::duplicate_expression`, outer loop over the
old-to-new map. Each iteration writes only its own clone's edges, so the
iteration order over the map does not affect the result; discovery
order is used. -/
def dupPhase2 (st : Tokex) (o2n : List (Option Nat × Option Nat)) :
    List (Option Nat × Option Nat) → Option Tokex
  | [] => some st
  | (old, newO) :: rest =>
    match old, newO with
    | some oid, some nid =>
      match dupEdges st o2n nid ((getNode st oid).next) with
      | none => none
      | some st' => dupPhase2 st' o2n rest
    | _, _ => dupPhase2 st o2n rest

/-- `Tokex::duplicate_expression`: clone the graph reachable from
`first` and return the clone of `first`. -/
def duplicate_expression (fuel : Nat) (st : Tokex) (first : Option Nat) :
    Option (Tokex × Option Nat) :=
  match dupPhase1 fuel st [] [first] with
  | none => none
  | some (st', o2n) =>
    match dupPhase2 st' o2n o2n with
    | none => none
    | some st'' =>
      match alistGet first o2n with
      | none => none
      | some newFirst => some (st'', newFirst)

/-- Insertion into a sorted id list, used to model iteration over a
`std::set` of nodes in ascending allocation order. -/
def insertSorted (x : Nat) : List Nat → List Nat
  | [] => [x]
  | y :: ys => if x ≤ y then x :: y :: ys else y :: insertSorted x ys

/-- Sort a list of ids ascending (the modelled `std::set` order). -/
def sortNat (l : List Nat) : List Nat := l.foldr insertSorted []

/-- Epsilon-chain breadth-first walk of `close_node`: gather the closure
of the start node following single epsilon edges, adopting non-normal
types downward and erasing each traversed epsilon edge, except an edge
whose target is already in the closure (which is kept). Dereferencing a
null epsilon target is the source's undefined behaviour. -/
def closeBfs (fuel : Nat) (st : Tokex) (closure : List Nat)
    (queue : List (Option Nat)) : Option (Tokex × List Nat) :=
  match fuel with
  | 0 => none
  | fuel + 1 =>
    match queue with
    | [] => some (st, closure)
    | cur :: queue' =>
      match cur with
      | none => closeBfs fuel st closure queue'
      | some cid =>
        match mapFind epsC (getNode st cid).next with
        | none => closeBfs fuel st closure queue'
        | some none => none
        | some (some tid) =>
          if closure.contains tid then closeBfs fuel st closure queue'
          else
            let st1 := if (getNode st tid).ty ≠ NodeType.normal
                       then setType st cid (getNode st tid).ty else st
            let st2 := eraseEdge st1 cid epsC
            closeBfs fuel st2 (closure ++ [tid]) (queue' ++ [some tid])

mutual

/-- `close_node` from expression.hpp: if the node carries an epsilon
edge, gather its epsilon closure (erasing the traversed epsilon edges
and adopting types), then merge every closure member's edges into the
node, chaining conflicting destinations through a fresh epsilon edge
and re-closing. -/
def close_node (fuel : Nat) (st : Tokex) (cur : Option Nat) : Option Tokex :=
  match fuel with
  | 0 => none
  | fuel + 1 =>
    match cur with
    | none => some st
    | some c =>
      if mapContains epsC (getNode st c).next then
        match closeBfs fuel st [] [some c] with
        | none => none
        | some (st', closure) => closeMerge fuel st' c (sortNat closure)
      else some st

/-- Outer merge loop of `close_node` over the closure set, iterated in
ascending id order (the modelled pointer order of the `std::set`). -/
def closeMerge (fuel : Nat) (st : Tokex) (c : Nat) (nodes : List Nat) : Option Tokex :=
  match fuel with
  | 0 => none
  | fuel + 1 =>
    match nodes with
    | [] => some st
    | n :: rest =>
      match closeMergeEdges fuel st c n ((getNode st n).next) with
      | none => none
      | some st' => closeMerge fuel st' c rest

/-- Inner merge loop of `close_node` over the snapshot of one closure
member's edges: copy absent keys directly; on a key conflict, unless the
self-loop guard fires, append an epsilon edge at the epsilon terminus of
the existing destination and recursively close that destination. -/
def closeMergeEdges (fuel : Nat) (st : Tokex) (c n : Nat) :
    List (Char × Option Nat) → Option Tokex
  | [] => some st
  | (k, t) :: rest =>
    match fuel with
    | 0 => none
    | fuel + 1 =>
      match mapFind k (getNode st c).next with
      | none => closeMergeEdges fuel (setEdge st c k t) c n rest
      | some existing =>
        if existing = some c && t = some n then
          closeMergeEdges fuel st c n rest
        else
          match existing with
          | none => none
          | some e0 =>
            match epsTerminus fuel st e0 with
            | none => none
            | some cursor =>
              let st' := setEdge st cursor epsC t
              match mapFind k (getNode st' c).next with
              | none => none
              | some rd =>
                match close_node fuel st' rd with
                | none => none
                | some st'' => closeMergeEdges fuel st'' c n rest

end

/-- Node-collection phase of `Expression::remove_epsilons`: breadth-first
walk from the fragment entry over all edges. The source dereferences
every popped pointer, so a reachable dangling edge is undefined
behaviour. -/
def collectNodes (fuel : Nat) (st : Tokex) (all : List (Option Nat))
    (queue : List (Option Nat)) : Option (List (Option Nat)) :=
  match fuel with
  | 0 => none
  | fuel + 1 =>
    match queue with
    | [] => some all
    | cur :: queue' =>
      match cur with
      | none => none
      | some cid =>
        let step := (getNode st cid).next.foldl
          (fun (acc : List (Option Nat) × List (Option Nat)) e =>
            if acc.1.contains e.2 then acc else (acc.1 ++ [e.2], acc.2 ++ [e.2]))
          (all, queue')
        collectNodes fuel st step.1 step.2

/-- Close every collected node in turn. -/
def closeAll (fuel : Nat) (st : Tokex) : List Nat → Option Tokex
  | [] => some st
  | n :: rest =>
    match close_node fuel st (some n) with
    | none => none
    | some st' => closeAll fuel st' rest

/-- `Expression::remove_epsilons`: collect every node reachable from the
entry, then close each one, iterating the collected set in ascending id
order. -/
def remove_epsilons (fuel : Nat) (st : Tokex) (first : Option Nat) : Option Tokex :=
  match collectNodes fuel st [first] [first] with
  | none => none
  | some all => closeAll fuel st (sortNat (all.filterMap id))

end Tokex2Proof

namespace Tokex2Proof

/-! The parser and assembler: `Tokex::compile` over a token range
(tokex.hpp). The fragment list is kept reversed so that the back of the
C++ vector is the head. -/

/-- Delimiter scan of the subexpression case of `Tokex::compile`: from
the position after the opening token, record top-level alternation
positions and the matching close, tracking nesting depth. Running past
the range end is the fatal unmatched-open error. The unmatched-close
throw of the source is dead code, because the depth counter starts at
one and the scan stops the moment it reaches zero. -/
def scanDelims (fuel : Nat) (pattern : List Char) (i endIdx count : Nat)
    (delims : List Nat) : Option (List Nat × Nat) :=
  match fuel with
  | 0 => none
  | fuel + 1 =>
    if i ≥ endIdx then none
    else
      match pattern.get? i with
      | none => none
      | some c =>
        if is_subexpr_open c then
          scanDelims fuel pattern (i + 1) endIdx (count + 1) delims
        else if is_disjunction c then
          scanDelims fuel pattern (i + 1) endIdx count
            (if count = 1 then delims ++ [i] else delims)
        else if is_subexpr_close c then
          if count = 1 then some (delims ++ [i], i)
          else scanDelims fuel pattern (i + 1) endIdx (count - 1) delims
        else scanDelims fuel pattern (i + 1) endIdx count delims

/-- Left fold of `add_other_as_suit` merging alternation arms into the
first arm. -/
def suitFold (fuel : Nat) (st : Tokex) (acc : Nat) : List Nat → Option Tokex
  | [] => some st
  | s :: rest =>
    match suit_add_recursive fuel st acc s with
    | none => none
    | some st' => suitFold fuel st' acc rest

/-- Left fold of `knit_other_onto_end` assembling the fragment list onto
its first member. -/
def knitFold (fuel : Nat) (st : Tokex) (front : Nat) : List Nat → Option (Tokex × Nat)
  | [] => some (st, front)
  | nxt :: rest =>
    match knit_other_onto_end fuel st (some front) (some nxt) with
    | none => none
    | some st' => knitFold fuel st' front rest

mutual

/-- Main scan loop of `Tokex::compile(pattern, begin, end)`. `revExprs`
is the per-token fragment vector with its back at the head. A failed
`assert(!expressions.empty())` on a lone postfix operator and the
out-of-bounds read of a trailing escape are fatal. -/
def compileLoop (fuel : Nat) (st : Tokex) (pattern : List Char)
    (i endIdx : Nat) (revExprs : List Nat) : Option (Tokex × List Nat) :=
  match fuel with
  | 0 => none
  | fuel + 1 =>
    if i ≥ endIdx then some (st, revExprs)
    else
      match pattern.get? i with
      | none => none
      | some c =>
        if is_escape c then
          match pattern.get? (i + 1) with
          | none => none
          | some lit =>
            let (st', n) := create_node st
            let st' := setEdge st' n lit none
            compileLoop fuel st' pattern (i + 2) endIdx (n :: revExprs)
        else if is_subexpr_open c then
          match scanDelims fuel pattern (i + 1) endIdx 1 [i] with
          | none => none
          | some (delims, closeIdx) =>
            match compileSegs fuel st pattern delims with
            | none => none
            | some (st', subs) =>
              match subs with
              | [] => none
              | s0 :: srest =>
                match suitFold fuel st' s0 srest with
                | none => none
                | some st'' =>
                  compileLoop fuel st'' pattern (closeIdx + 1) endIdx (s0 :: revExprs)
        else if is_wildcard c then
          let (st', n) := create_node st
          let st' := setEdge st' n wildC none
          compileLoop fuel st' pattern (i + 1) endIdx (n :: revExprs)
        else if is_optional c then
          match revExprs with
          | [] => none
          | b :: _ =>
            compileLoop fuel (setEdge st b epsC none) pattern (i + 1) endIdx revExprs
        else if is_star c then
          match revExprs with
          | [] => none
          | b :: _ =>
            match knit_other_onto_end fuel st (some b) (some b) with
            | none => none
            | some st' =>
              compileLoop fuel (setEdge st' b epsC none) pattern (i + 1) endIdx revExprs
        else if is_plus c then
          match revExprs with
          | [] => none
          | b :: _ =>
            match duplicate_expression fuel st (some b) with
            | none => none
            | some (st', dupFirst) =>
              match dupFirst with
              | none => none
              | some d =>
                match knit_other_onto_end fuel st' (some d) (some d) with
                | none => none
                | some st'' =>
                  compileLoop fuel (setEdge st'' d epsC none) pattern (i + 1) endIdx
                    (d :: revExprs)
        else
          let (st', n) := create_node st
          let st' := setEdge st' n c none
          compileLoop fuel st' pattern (i + 1) endIdx (n :: revExprs)

/-- Compile the alternation segments between consecutive delimiter
positions. -/
def compileSegs (fuel : Nat) (st : Tokex) (pattern : List Char)
    (delims : List Nat) : Option (Tokex × List Nat) :=
  match fuel with
  | 0 => none
  | fuel + 1 =>
    match delims with
    | [] => some (st, [])
    | [_] => some (st, [])
    | d0 :: d1 :: rest =>
      match compileRange fuel st pattern (d0 + 1) d1 with
      | none => none
      | some (st', e) =>
        match compileSegs fuel st' pattern (d1 :: rest) with
        | none => none
        | some (st'', es) => some (st'', e :: es)

/-- `Tokex::compile(pattern, begin, end)`: scan the range into per-token
fragments, then knit them left to right onto the first. Taking the front
of an empty fragment vector (empty pattern or empty alternation
segment) is the source's undefined `std::vector::front()` call. -/
def compileRange (fuel : Nat) (st : Tokex) (pattern : List Char)
    (b e : Nat) : Option (Tokex × Nat) :=
  match fuel with
  | 0 => none
  | fuel + 1 =>
    match compileLoop fuel st pattern b e [] with
    | none => none
    | some (st', revExprs) =>
      match revExprs.reverse with
      | [] => none
      | e0 :: rest => knitFold fuel st' e0 rest

end

/-- Fuel passed to the pipeline by the top-level compile; ample for
every pattern whose compilation terminates in the source. -/
def compileFuel : Nat := 2000

/-- Tail of `Tokex::compile(pattern)` after epsilon removal: purge the
unreachable nodes. -/
def compileStage4 (st3 : Tokex) (sid : Nat) : Option (Tokex × Nat) :=
  some (purge st3, sid)

/-- Tail of `Tokex::compile(pattern)` after the success node is knitted
on: remove epsilon transitions, then purge. -/
def compileStage3 (fuel : Nat) (st2 : Tokex) (first sid : Nat) : Option (Tokex × Nat) :=
  match remove_epsilons fuel st2 (some first) with
  | none => none
  | some st3 => compileStage4 st3 sid

/-- Tail of `Tokex::compile(pattern)` after the range is compiled:
install the entry, append the end-typed success node, knit it onto the
fragment, and continue. -/
def compileStage2 (fuel : Nat) (st : Tokex) (first : Nat) : Option (Tokex × Nat) :=
  let q := create_node { st with beginning := some first }
  match knit_other_onto_end fuel (setType q.1 q.2 NodeType.end_) (some first) (some q.2) with
  | none => none
  | some st2 => compileStage3 fuel st2 first q.2

/-- `Tokex::compile(pattern)` at a given fuel: compile the whole range,
then the staged tail above. Also returns the id of the appended success
node. -/
def compileAuxF (fuel : Nat) (pattern : List Char) : Option (Tokex × Nat) :=
  match compileRange fuel {} pattern 0 pattern.length with
  | none => none
  | some (st, first) => compileStage2 fuel st first

/-- `Tokex::compile(pattern)` with the standard fuel. -/
def compileAux (pattern : List Char) : Option (Tokex × Nat) :=
  compileAuxF compileFuel pattern

/-- `Tokex::compile(pattern)` as observed through the engine state. -/
def compileT (pattern : List Char) : Option Tokex :=
  (compileAux pattern).map Prod.fst

end Tokex2Proof

namespace Tokex2Proof

/-! Stage equations for the top-level compile, used to evaluate the
pipeline one stage at a time on explicit states. -/

/-- Unfold `compileAuxF` once the parse result is known. -/
theorem compileAuxF_parse (fuel : Nat) (pattern : List Char) (st : Tokex) (first : Nat)
    (h : compileRange fuel {} pattern 0 pattern.length = some (st, first)) :
    compileAuxF fuel pattern = compileStage2 fuel st first := by
  unfold compileAuxF
  rw [h]

/-- Unfold `compileStage2` once the success-node allocation and the knit
result are known. -/
theorem compileStage2_eq (fuel : Nat) (st : Tokex) (first : Nat)
    (stq : Tokex) (sid : Nat) (st2 : Tokex)
    (hq : create_node { st with beginning := some first } = (stq, sid))
    (hk : knit_other_onto_end fuel (setType stq sid NodeType.end_)
        (some first) (some sid) = some st2) :
    compileStage2 fuel st first = compileStage3 fuel st2 first sid := by
  simp only [compileStage2, hq, hk]

/-- Unfold `compileStage3` once the epsilon-removal result is known. -/
theorem compileStage3_eq (fuel : Nat) (st2 : Tokex) (first sid : Nat) (st3 : Tokex)
    (h : remove_epsilons fuel st2 (some first) = some st3) :
    compileStage3 fuel st2 first sid = compileStage4 st3 sid := by
  unfold compileStage3
  rw [h]

/-- Unfold `remove_epsilons` once the collected node set is known. -/
theorem remove_epsilons_eq (fuel : Nat) (st : Tokex) (first : Option Nat)
    (all : List (Option Nat))
    (h : collectNodes fuel st [first] [first] = some all) :
    remove_epsilons fuel st first = closeAll fuel st (sortNat (all.filterMap id)) := by
  unfold remove_epsilons
  rw [h]

/-- Step `closeAll` across one settled `close_node` call. -/
theorem closeAll_cons (fuel : Nat) (st : Tokex) (n : Nat) (rest : List Nat) (st' : Tokex)
    (h : close_node fuel st (some n) = some st') :
    closeAll fuel st (n :: rest) = closeAll fuel st' rest := by
  have e : closeAll fuel st (n :: rest) =
      match close_node fuel st (some n) with
      | none => none
      | some r => closeAll fuel r rest := rfl
  rw [e, h]

/-! Explicit pipeline states for the pattern `(a+)?a*`, printed from the
evaluation of the model and checked stage by stage below. -/

/-- Parse result of `(a+)?a*`. -/
def c1S1 : Tokex :=
  { store := [(0, { ty := NodeType.normal, next := [('\x00', some 2), ('a', some 1)] }),
              (1, { ty := NodeType.normal, next := [('\x00', some 2), ('a', some 1)] }),
              (2, { ty := NodeType.normal, next := [('\x00', none), ('a', some 2)] })],
    nextId := 3, beginning := none, allNodes := [0, 1, 2] }

/-- State of `(a+)?a*` after the success node is appended (before the
type write). -/
def c1S2 : Tokex :=
  { store := [(0, { ty := NodeType.normal, next := [('\x00', some 2), ('a', some 1)] }),
              (1, { ty := NodeType.normal, next := [('\x00', some 2), ('a', some 1)] }),
              (2, { ty := NodeType.normal, next := [('\x00', none), ('a', some 2)] }),
              (3, {})],
    nextId := 4, beginning := some 0, allNodes := [0, 1, 2, 3] }

/-- State of `(a+)?a*` after the success node is knitted on. -/
def c1S3 : Tokex :=
  { store := [(0, { ty := NodeType.normal, next := [('\x00', some 2), ('a', some 1)] }),
              (1, { ty := NodeType.normal, next := [('\x00', some 2), ('a', some 1)] }),
              (2, { ty := NodeType.normal, next := [('\x00', some 3), ('a', some 2)] }),
              (3, { ty := NodeType.end_, next := [] })],
    nextId := 4, beginning := some 0, allNodes := [0, 1, 2, 3] }

/-- State of `(a+)?a*` after node 0 is closed: node 1 has adopted the
end type and regained an epsilon edge to node 2, and node 2 carries an
epsilon self-loop. -/
def c1T1 : Tokex :=
  { store := [(0, { ty := NodeType.normal, next := [('a', some 1)] }),
              (1, { ty := NodeType.end_, next := [('\x00', some 2), ('a', some 1)] }),
              (2, { ty := NodeType.end_, next := [('\x00', some 2), ('a', some 2)] }),
              (3, { ty := NodeType.end_, next := [] })],
    nextId := 4, beginning := some 0, allNodes := [0, 1, 2, 3] }

/-- State of `(a+)?a*` after nodes 1 and 2 are closed: closing node 1
erases and then re-copies its epsilon edge, so only node 2's epsilon
self-loop disappears. -/
def c1T2 : Tokex :=
  { store := [(0, { ty := NodeType.normal, next := [('a', some 1)] }),
              (1, { ty := NodeType.end_, next := [('\x00', some 2), ('a', some 1)] }),
              (2, { ty := NodeType.end_, next := [('a', some 2)] }),
              (3, { ty := NodeType.end_, next := [] })],
    nextId := 4, beginning := some 0, allNodes := [0, 1, 2, 3] }

/-- C1: refuted on the code. Compiling the pattern `(a+)?a*` completes
without any error, yet the node reached by the token `a` keeps an
epsilon-keyed transition, so `has_epsilons()` returns true immediately
after the successful `compile()`. (The surviving edge depends on the
closure iterating the node set in allocation order, the modelled
`std::set` pointer order.) -/
theorem claim_C1_epsilon_leftover :
    ((compileT ("(a+)?a*".toList)).map has_epsilons) = some true := by
  have hR : compileRange compileFuel {} ("(a+)?a*".toList) 0
      ("(a+)?a*".toList).length = some (c1S1, 0) := by decide
  have hq : create_node { c1S1 with beginning := some 0 } = (c1S2, 3) := by decide
  have hK : knit_other_onto_end compileFuel (setType c1S2 3 NodeType.end_)
      (some 0) (some 3) = some c1S3 := by decide
  have hC : collectNodes compileFuel c1S3 [some 0] [some 0] =
      some [some 0, some 2, some 1, some 3] := by decide
  have hsort : sortNat ([some 0, some 2, some 1, some 3].filterMap id) =
      [0, 1, 2, 3] := by decide
  have h0 : close_node compileFuel c1S3 (some 0) = some c1T1 := by decide
  have h1 : close_node compileFuel c1T1 (some 1) = some c1T1 := by decide
  have h2 : close_node compileFuel c1T1 (some 2) = some c1T2 := by decide
  have h3 : close_node compileFuel c1T2 (some 3) = some c1T2 := by decide
  have hE : remove_epsilons compileFuel c1S3 (some 0) = some c1T2 := by
    rw [remove_epsilons_eq _ _ _ _ hC, hsort, closeAll_cons _ _ _ _ _ h0,
        closeAll_cons _ _ _ _ _ h1, closeAll_cons _ _ _ _ _ h2,
        closeAll_cons _ _ _ _ _ h3]
    rfl
  have hfin : has_epsilons (purge c1T2) = true := by decide
  unfold compileT compileAux
  rw [compileAuxF_parse _ _ _ _ hR, compileStage2_eq _ _ _ _ _ _ hq hK,
      compileStage3_eq _ _ _ _ _ hE]
  show some (has_epsilons (purge c1T2)) = some true
  rw [hfin]

end Tokex2Proof

namespace Tokex2Proof

/-- C3: refuted on the code. Compiling the empty pattern does not
produce an automaton accepting the empty sequence: the assembly step
takes `front()` of an empty fragment vector, which is undefined
behaviour (modelled as failure); a zero-length alternation segment, as
in `(a||b)`, reaches the same `front()` call on an empty vector instead
of building an epsilon-bypass fragment. -/
theorem claim_C3_empty_pattern_fails :
    compileT ([] : List Char) = none ∧ compileT ("(a||b)".toList) = none := by
  decide

/-- C4: refuted on the code for the unmatched-close case. A lone `)` at
top level is not a fatal error: the scanner's unmatched-close throw is
dead code and the token falls through to the literal case, so the
pattern `)` compiles into a machine matching exactly the token `)`. The
other error cases do fail as claimed: unmatched open, a lone postfix
operator (a failed assert, not a throw), and a trailing escape (an
out-of-bounds read, not a throw). -/
theorem claim_C4_lone_close_compiles_as_literal :
    ((compileT (")".toList)).map fun st => matchT st (")".toList)) = some true
    ∧ ((compileT (")".toList)).map fun st => matchT st []) = some false
    ∧ compileT ("(a".toList) = none
    ∧ compileT ("?".toList) = none
    ∧ compileT ("*".toList) = none
    ∧ compileT ("+".toList) = none
    ∧ compileT ("a\\".toList) = none := by
  decide

/-- C5, counterexample: the pattern `a?` is not empty, yet its compiled
machine has two reachable end-typed nodes, because epsilon closure
promoted the entry fragment's node to the end type while the appended
accept node stays reachable on the edge keyed `a`. -/
theorem claim_C5_counterexample_two_end_nodes :
    ((compileT ("a?".toList)).map fun st =>
      ((get_all_nodes st).filterMap id).countP fun i =>
        (getNode st i).ty == NodeType.end_) = some 2 := by
  decide

/-- C8, counterexample: the engines compiled from `(ab|a)` and `(a|ab)`
disagree on the input `a`, so alternation is not commutative at the
language level: merging the one-token arm into the two-token arm drops
the `a` branch and adds an empty-match branch instead. -/
theorem claim_C8_counterexample_not_commutative :
    ((compileT ("(ab|a)".toList)).map fun st => matchT st ("a".toList)) = some false
    ∧ ((compileT ("(a|ab)".toList)).map fun st => matchT st ("a".toList)) = some true := by
  decide

end Tokex2Proof

namespace Tokex2Proof

/-- C2: confirmed. One `run` step selects the successor in the fixed
order of tokex.hpp: a null current stays null; else the transition keyed
exactly by the input token if present (even when a wildcard edge also
exists, so a literal edge shadows the wildcard); else the wildcard-keyed
transition if present; else, only when epsilons are allowed, the
epsilon-keyed transition; else null. Moreover a whole run from the null
sink never leaves it. -/
theorem claim_C2_run_lookup_order (st : Tokex) (cur : Option Nat) (c : Char)
    (allow : Bool) :
    (runStep st none c allow = none)
    ∧ (∀ i t, cur = some i → mapFind c (getNode st i).next = some t →
        runStep st cur c allow = t)
    ∧ (∀ i t, cur = some i → mapFind c (getNode st i).next = none →
        mapFind wildC (getNode st i).next = some t → runStep st cur c allow = t)
    ∧ (∀ i t, cur = some i → mapFind c (getNode st i).next = none →
        mapFind wildC (getNode st i).next = none →
        mapFind epsC (getNode st i).next = some t →
        runStep st cur c allow = if allow then t else none)
    ∧ (∀ i, cur = some i → mapFind c (getNode st i).next = none →
        mapFind wildC (getNode st i).next = none →
        mapFind epsC (getNode st i).next = none →
        runStep st cur c allow = none)
    ∧ (∀ input : List Char, runList st none input allow = none) := by
  refine ⟨rfl, ?_, ?_, ?_, ?_, ?_⟩
  · intro i t hc hf
    subst hc
    simp only [runStep, hf]
  · intro i t hc hf hw
    subst hc
    simp only [runStep, hf, hw]
  · intro i t hc hf hw he
    subst hc
    simp only [runStep, hf, hw, he]
  · intro i hc hf hw he
    subst hc
    simp only [runStep, hf, hw, he]
    cases allow <;> rfl
  · intro input
    induction input with
    | nil => rfl
    | cons c0 rest ih => exact ih

/-- A three-node machine whose entry carries both a literal edge on `a`
and a wildcard edge, used to instantiate the run-order theorem. -/
def c2St : Tokex :=
  { store := [(0, { ty := NodeType.normal, next := [('.', some 2), ('a', some 1)] }),
              (1, { ty := NodeType.end_, next := [] }),
              (2, { ty := NodeType.normal, next := [] })],
    nextId := 3, beginning := some 0, allNodes := [0, 1, 2] }

/-- Witness for the run-order theorem: on a state carrying both an exact
edge for `a` and a wildcard edge, the step on input `a` takes the exact
edge. -/
theorem claim_C2_run_lookup_order_witness :
    runStep c2St (some 0) 'a' false = some 1 :=
  (claim_C2_run_lookup_order c2St (some 0) 'a' false).2.1 0 (some 1) rfl (by decide)

end Tokex2Proof

namespace Tokex2Proof

/-- C6: confirmed. After a successful compile, running `purge()` does
not change `match` on any input: purge rewrites only the owning node
set, keeping in it exactly the members that the breadth-first walk from
the entry reaches, and it leaves the node heap (hence every reachable
node and all of its transitions) and the entry untouched. -/
theorem claim_C6_purge_preserves_match (p : List Char) (st : Tokex)
    (h : compileT p = some st) (S : List Char) :
    matchT (purge st) S = matchT st S
    ∧ (purge st).allNodes =
        st.allNodes.filter (fun i => (get_all_nodes st).contains (some i))
    ∧ (∀ i ∈ (purge st).allNodes, (get_all_nodes st).contains (some i))
    ∧ (∀ i ∈ st.allNodes, (get_all_nodes st).contains (some i) →
        i ∈ (purge st).allNodes)
    ∧ (purge st).store = st.store
    ∧ (purge st).beginning = st.beginning := by
  refine ⟨rfl, rfl, ?_, ?_, rfl, rfl⟩
  · intro i hi
    exact (List.mem_filter.mp hi).2
  · intro i hi hr
    exact List.mem_filter.mpr ⟨hi, hr⟩

/-- The machine compiled from the one-token pattern `)`. -/
def c6St : Tokex :=
  { store := [(0, { ty := NodeType.normal, next := [(')', some 1)] }),
              (1, { ty := NodeType.end_, next := [] })],
    nextId := 2, beginning := some 0, allNodes := [0, 1] }

/-- Witness for the purge theorem at the machine compiled from `)` and
the input `)`. -/
theorem claim_C6_purge_preserves_match_witness :
    matchT (purge c6St) (")".toList) = matchT c6St (")".toList)
    ∧ (purge c6St).allNodes =
        c6St.allNodes.filter (fun i => (get_all_nodes c6St).contains (some i))
    ∧ (∀ i ∈ (purge c6St).allNodes, (get_all_nodes c6St).contains (some i))
    ∧ (∀ i ∈ c6St.allNodes, (get_all_nodes c6St).contains (some i) →
        i ∈ (purge c6St).allNodes)
    ∧ (purge c6St).store = c6St.store
    ∧ (purge c6St).beginning = c6St.beginning :=
  claim_C6_purge_preserves_match (")".toList) c6St (by decide) (")".toList)

end Tokex2Proof

namespace Tokex2Proof

/-! Pointwise lemmas about the store primitives, used by the pipeline
invariants below. -/

/-- One step of `storeSet`. -/
theorem storeSet_cons (j : Nat) (nd : NodeData) (k : Nat) (v : NodeData)
    (rest : List (Nat × NodeData)) :
    storeSet j nd ((k, v) :: rest) =
      (if k = j then (j, nd) else (k, v)) :: storeSet j nd rest := rfl

/-- One step of `storeGet`. -/
theorem storeGet_cons (i k : Nat) (v : NodeData) (rest : List (Nat × NodeData)) :
    storeGet i ((k, v) :: rest) = if i = k then some v else storeGet i rest := rfl

/-- Reading a store after replacing one node. -/
theorem storeGet_storeSet (l : List (Nat × NodeData)) (j : Nat) (nd : NodeData)
    (i : Nat) :
    storeGet i (storeSet j nd l) =
      if i = j then (storeGet j l).map (fun _ => nd) else storeGet i l := by
  induction l with
  | nil => by_cases h : i = j <;> simp [h, storeSet, storeGet]
  | cons p rest ih =>
    obtain ⟨k, v⟩ := p
    rw [storeSet_cons]
    by_cases hkj : k = j
    · rw [if_pos hkj]
      subst hkj
      rw [storeGet_cons, storeGet_cons, storeGet_cons]
      by_cases hik : i = k
      · simp [hik]
      · simp [hik, ih]
    · rw [if_neg hkj, storeGet_cons, storeGet_cons, storeGet_cons]
      have hjk : ¬ j = k := fun h => hkj h.symm
      by_cases hik : i = k
      · have hij : ¬ i = j := fun h => hkj (hik.symm.trans h)
        simp [hik, hij, hkj]
      · simp [hik, hjk, ih]

/-- `storeSet` does not change the id column of the store. -/
theorem storeSet_keys (l : List (Nat × NodeData)) (j : Nat) (nd : NodeData) :
    (storeSet j nd l).map Prod.fst = l.map Prod.fst := by
  induction l with
  | nil => rfl
  | cons p rest ih =>
    obtain ⟨k, v⟩ := p
    rw [storeSet_cons]
    by_cases hkj : k = j
    · rw [if_pos hkj]
      subst hkj
      simp [ih]
    · rw [if_neg hkj]
      simp [ih]

/-- Reading one node after `setNode`. -/
theorem getNode_setNode (st : Tokex) (j : Nat) (nd : NodeData) (i : Nat) :
    getNode (setNode st j nd) i =
      if i = j ∧ (storeGet j st.store).isSome then nd else getNode st i := by
  unfold getNode setNode
  simp only [storeGet_storeSet]
  by_cases hij : i = j
  · subst hij
    cases h : storeGet i st.store <;> simp [h]
  · simp [hij]

/-- Reading a store extended on the right by one fresh entry. -/
theorem storeGet_append (l : List (Nat × NodeData)) (n : Nat) (nd : NodeData)
    (i : Nat) :
    storeGet i (l ++ [(n, nd)]) =
      match storeGet i l with
      | some v => some v
      | none => if i = n then some nd else none := by
  induction l with
  | nil => by_cases h : i = n <;> simp [h, storeGet]
  | cons p rest ih =>
    obtain ⟨k, v⟩ := p
    by_cases hik : i = k <;> simp [storeGet_cons, hik, ih]

/-- The id column of the store after `create_node`. -/
theorem create_node_keys (st : Tokex) :
    (create_node st).1.store.map Prod.fst = st.store.map Prod.fst ++ [st.nextId] := by
  simp [create_node]

/-- Reading one node after `create_node`. -/
theorem getNode_create_node (st : Tokex) (i : Nat) :
    getNode (create_node st).1 i =
      match storeGet i st.store with
      | some v => v
      | none => if i = st.nextId then ({} : NodeData) else {} := by
  unfold getNode create_node
  simp only [storeGet_append]
  cases h : storeGet i st.store
  · by_cases hin : i = st.nextId <;> simp [hin]
  · rfl

/-- Types are untouched by `setEdge`. -/
theorem ty_setEdge (st : Tokex) (j : Nat) (k : Char) (v : Option Nat) (i : Nat) :
    (getNode (setEdge st j k v) i).ty = (getNode st i).ty := by
  unfold setEdge
  rw [getNode_setNode]
  split
  · next h => rw [h.1]; rfl
  · rfl

/-- Types are untouched by `eraseEdge`. -/
theorem ty_eraseEdge (st : Tokex) (j : Nat) (k : Char) (i : Nat) :
    (getNode (eraseEdge st j k) i).ty = (getNode st i).ty := by
  unfold eraseEdge
  rw [getNode_setNode]
  split
  · next h => rw [h.1]; rfl
  · rfl

/-- Type after `setType`: the targeted stored node takes the new type,
all others are untouched. -/
theorem ty_setType (st : Tokex) (j : Nat) (t : NodeType) (i : Nat) :
    (getNode (setType st j t) i).ty =
      if i = j ∧ (storeGet j st.store).isSome then t else (getNode st i).ty := by
  unfold setType
  rw [getNode_setNode]
  split
  · rfl
  · rfl

end Tokex2Proof

namespace Tokex2Proof

/-- Membership after replacing one node: every entry is the replacement
or an original entry. -/
theorem mem_storeSet (l : List (Nat × NodeData)) (j : Nat) (nd : NodeData)
    (p : Nat × NodeData) (hp : p ∈ storeSet j nd l) : p = (j, nd) ∨ p ∈ l := by
  induction l with
  | nil => cases hp
  | cons q rest ih =>
    obtain ⟨k, v⟩ := q
    rw [storeSet_cons] at hp
    rcases List.mem_cons.mp hp with h | h
    · by_cases hkj : k = j
      · rw [if_pos hkj] at h
        exact Or.inl h
      · rw [if_neg hkj] at h
        exact Or.inr (List.mem_cons.mpr (Or.inl h))
    · rcases ih h with h' | h'
      · exact Or.inl h'
      · exact Or.inr (List.mem_cons.mpr (Or.inr h'))

/-- A successful `storeGet` returns a member of the store. -/
theorem storeGet_mem (l : List (Nat × NodeData)) (i : Nat) (v : NodeData)
    (h : storeGet i l = some v) : (i, v) ∈ l := by
  induction l with
  | nil => cases h
  | cons q rest ih =>
    obtain ⟨k, w⟩ := q
    rw [storeGet_cons] at h
    by_cases hik : i = k
    · rw [if_pos hik] at h
      subst hik
      cases h
      exact List.mem_cons.mpr (Or.inl rfl)
    · rw [if_neg hik] at h
      exact List.mem_cons.mpr (Or.inr (ih h))

/-- Every entry of `mapInsert k v m` is the new pair or an old entry. -/
theorem mem_mapInsert (m : EdgeMap) (k : Char) (v : Option Nat)
    (e : Char × Option Nat) (he : e ∈ mapInsert k v m) : e = (k, v) ∨ e ∈ m := by
  induction m with
  | nil =>
    rw [mapInsert] at he
    rcases List.mem_cons.mp he with h | h
    · exact Or.inl h
    · cases h
  | cons q rest ih =>
    obtain ⟨k', v'⟩ := q
    rw [mapInsert] at he
    by_cases hlt : k < k'
    · rw [if_pos hlt] at he
      rcases List.mem_cons.mp he with h | h
      · exact Or.inl h
      · exact Or.inr h
    · rw [if_neg hlt] at he
      by_cases heq : k = k'
      · rw [if_pos heq] at he
        rcases List.mem_cons.mp he with h | h
        · exact Or.inl h
        · exact Or.inr (List.mem_cons.mpr (Or.inr h))
      · rw [if_neg heq] at he
        rcases List.mem_cons.mp he with h | h
        · exact Or.inr (List.mem_cons.mpr (Or.inl h))
        · rcases ih h with h' | h'
          · exact Or.inl h'
          · exact Or.inr (List.mem_cons.mpr (Or.inr h'))

/-- `mapErase` only removes entries. -/
theorem mem_mapErase (m : EdgeMap) (k : Char) (e : Char × Option Nat)
    (he : e ∈ mapErase k m) : e ∈ m := by
  induction m with
  | nil => cases he
  | cons q rest ih =>
    obtain ⟨k', v'⟩ := q
    rw [mapErase] at he
    by_cases heq : k = k'
    · rw [if_pos heq] at he
      exact List.mem_cons.mpr (Or.inr he)
    · rw [if_neg heq] at he
      rcases List.mem_cons.mp he with h | h
      · exact List.mem_cons.mpr (Or.inl h)
      · exact List.mem_cons.mpr (Or.inr (ih h))

/-- A successful `mapFind` returns the value of an entry. -/
theorem mapFind_mem (m : EdgeMap) (k : Char) (v : Option Nat)
    (h : mapFind k m = some v) : (k, v) ∈ m := by
  induction m with
  | nil => cases h
  | cons q rest ih =>
    obtain ⟨k', v'⟩ := q
    rw [mapFind] at h
    by_cases heq : k = k'
    · rw [if_pos heq] at h
      subst heq
      cases h
      exact List.mem_cons.mpr (Or.inl rfl)
    · rw [if_neg heq] at h
      exact List.mem_cons.mpr (Or.inr (ih h))

/-- The id column of the store. -/
def Ids (st : Tokex) : List Nat := st.store.map Prod.fst

/-- Every non-null transition target of every stored node is itself a
stored id. -/
def EdgesClosed (st : Tokex) : Prop :=
  ∀ p ∈ st.store, ∀ e ∈ p.2.next, ∀ j : Nat, e.2 = some j → j ∈ Ids st

/-- Every node type is `normal` or `end` (the compiler never writes
`scripting` or `error`). -/
def TyInv (st : Tokex) : Prop :=
  ∀ i, (getNode st i).ty = NodeType.normal ∨ (getNode st i).ty = NodeType.end_

/-- Every stored id is below the allocation counter, so the next
allocated id is fresh. -/
def FreshOk (st : Tokex) : Prop :=
  ∀ j ∈ Ids st, j < st.nextId

/-- The pipeline invariant: the owning node set lists exactly the stored
ids, transition targets stay in the store, types stay in the normal or
end range, and the allocation counter is above every stored id. -/
def Inv (st : Tokex) : Prop :=
  st.allNodes = Ids st ∧ EdgesClosed st ∧ TyInv st ∧ FreshOk st

/-- A legal transition target for a state: null or a stored id. -/
def TgtOk (st : Tokex) (t : Option Nat) : Prop :=
  ∀ j : Nat, t = some j → j ∈ Ids st

end Tokex2Proof

namespace Tokex2Proof

/-- End-typed nodes stay end-typed across a state transformation. -/
def EndKept (st st' : Tokex) : Prop :=
  ∀ i, (getNode st i).ty = NodeType.end_ → (getNode st' i).ty = NodeType.end_

/-- Summary of one pipeline step out of an invariant state: the
invariant still holds, the stored ids only grow, the entry pointer is
untouched, and end-typed nodes stay end-typed. -/
def StepTo (st st' : Tokex) : Prop :=
  Inv st' ∧ (∀ j, j ∈ Ids st → j ∈ Ids st') ∧ st'.beginning = st.beginning
  ∧ EndKept st st'

/-- `StepTo` is reflexive on invariant states. -/
theorem stepTo_refl (st : Tokex) (h : Inv st) : StepTo st st :=
  ⟨h, fun _ hj => hj, rfl, fun _ hi => hi⟩

/-- `StepTo` composes. -/
theorem stepTo_trans (st₁ st₂ st₃ : Tokex) (h₁ : StepTo st₁ st₂)
    (h₂ : StepTo st₂ st₃) : StepTo st₁ st₃ :=
  ⟨h₂.1, fun j hj => h₂.2.1 j (h₁.2.1 j hj), h₂.2.2.1.trans h₁.2.2.1,
    fun i hi => h₂.2.2.2 i (h₁.2.2.2 i hi)⟩

/-- The ids of a state after `setNode` are unchanged. -/
theorem Ids_setNode (st : Tokex) (j : Nat) (nd : NodeData) :
    Ids (setNode st j nd) = Ids st :=
  storeSet_keys st.store j nd

/-- Writing one edge with a legal target is a pipeline step. -/
theorem stepTo_setEdge (st : Tokex) (j : Nat) (k : Char) (v : Option Nat)
    (hst : Inv st) (hv : TgtOk st v) : StepTo st (setEdge st j k v) := by
  obtain ⟨ha, hc, hty, hfr⟩ := hst
  refine ⟨⟨?_, ?_, ?_, ?_⟩, ?_, rfl, ?_⟩
  · show (setEdge st j k v).allNodes = Ids (setEdge st j k v)
    rw [setEdge, Ids_setNode]
    exact ha
  · intro p hp e he t het
    rw [setEdge, Ids_setNode]
    rcases mem_storeSet _ _ _ _ hp with hpj | hpo
    · subst hpj
      rcases mem_mapInsert _ _ _ _ he with hekv | heold
      · subst hekv
        exact hv t het
      · cases hg : storeGet j st.store with
        | none =>
          rw [getNode, hg] at heold
          cases heold
        | some nd =>
          rw [getNode, hg] at heold
          exact hc (j, nd) (storeGet_mem _ _ _ hg) e heold t het
    · exact hc p hpo e he t het
  · intro i
    rw [ty_setEdge]
    exact hty i
  · show FreshOk (setEdge st j k v)
    intro j0 hj0
    rw [setEdge, Ids_setNode] at hj0
    exact hfr j0 hj0
  · intro j0 hj0
    rw [setEdge, Ids_setNode]
    exact hj0
  · intro i hi
    rw [ty_setEdge]
    exact hi

/-- Erasing one edge is a pipeline step. -/
theorem stepTo_eraseEdge (st : Tokex) (j : Nat) (k : Char)
    (hst : Inv st) : StepTo st (eraseEdge st j k) := by
  obtain ⟨ha, hc, hty, hfr⟩ := hst
  refine ⟨⟨?_, ?_, ?_, ?_⟩, ?_, rfl, ?_⟩
  · show (eraseEdge st j k).allNodes = Ids (eraseEdge st j k)
    rw [eraseEdge, Ids_setNode]
    exact ha
  · intro p hp e he t het
    rw [eraseEdge, Ids_setNode]
    rcases mem_storeSet _ _ _ _ hp with hpj | hpo
    · subst hpj
      have heold := mem_mapErase _ _ _ he
      cases hg : storeGet j st.store with
      | none =>
        rw [getNode, hg] at heold
        cases heold
      | some nd =>
        rw [getNode, hg] at heold
        exact hc (j, nd) (storeGet_mem _ _ _ hg) e heold t het
    · exact hc p hpo e he t het
  · intro i
    rw [ty_eraseEdge]
    exact hty i
  · show FreshOk (eraseEdge st j k)
    intro j0 hj0
    rw [eraseEdge, Ids_setNode] at hj0
    exact hfr j0 hj0
  · intro j0 hj0
    rw [eraseEdge, Ids_setNode]
    exact hj0
  · intro i hi
    rw [ty_eraseEdge]
    exact hi

/-- Writing the end type into a node is a pipeline step. -/
theorem stepTo_setType_end (st : Tokex) (j : Nat)
    (hst : Inv st) : StepTo st (setType st j NodeType.end_) := by
  obtain ⟨ha, hc, hty, hfr⟩ := hst
  refine ⟨⟨?_, ?_, ?_, ?_⟩, ?_, rfl, ?_⟩
  · show (setType st j NodeType.end_).allNodes = Ids (setType st j NodeType.end_)
    rw [setType, Ids_setNode]
    exact ha
  · intro p hp e he t het
    rw [setType, Ids_setNode]
    rcases mem_storeSet _ _ _ _ hp with hpj | hpo
    · subst hpj
      cases hg : storeGet j st.store with
      | none =>
        rw [getNode, hg] at he
        cases he
      | some nd =>
        rw [getNode, hg] at he
        exact hc (j, nd) (storeGet_mem _ _ _ hg) e he t het
    · exact hc p hpo e he t het
  · intro i
    rw [ty_setType]
    split
    · exact Or.inr rfl
    · exact hty i
  · show FreshOk (setType st j NodeType.end_)
    intro j0 hj0
    rw [setType, Ids_setNode] at hj0
    exact hfr j0 hj0
  · intro j0 hj0
    rw [setType, Ids_setNode]
    exact hj0
  · intro i hi
    rw [ty_setType]
    split
    · rfl
    · exact hi

/-- Allocating a node is a pipeline step whose fresh id joins the id
set. -/
theorem stepTo_create_node (st : Tokex) (hst : Inv st) :
    StepTo st (create_node st).1
    ∧ Ids (create_node st).1 = Ids st ++ [st.nextId] := by
  obtain ⟨ha, hc, hty, hfr⟩ := hst
  have hids : Ids (create_node st).1 = Ids st ++ [st.nextId] := by
    simp [Ids, create_node]
  have hget : ∀ i, getNode (create_node st).1 i = getNode st i := by
    intro i
    rw [getNode_create_node, getNode]
    cases hg : storeGet i st.store with
    | none => simp
    | some nd => rfl
  refine ⟨⟨⟨?_, ?_, ?_, ?_⟩, ?_, rfl, ?_⟩, hids⟩
  · show (create_node st).1.allNodes = Ids (create_node st).1
    rw [hids]
    show st.allNodes ++ [st.nextId] = Ids st ++ [st.nextId]
    rw [ha]
  · intro p hp e he t het
    rw [hids]
    rcases List.mem_append.mp hp with hpo | hpn
    · exact List.mem_append.mpr (Or.inl (hc p hpo e he t het))
    · rcases List.mem_singleton.mp hpn with rfl
      cases he
  · intro i
    rw [hget i]
    exact hty i
  · show FreshOk (create_node st).1
    intro j hj
    rw [hids] at hj
    show j < st.nextId + 1
    rcases List.mem_append.mp hj with hjo | hjn
    · exact Nat.lt_succ_of_lt (hfr j hjo)
    · rcases List.mem_singleton.mp hjn with rfl
      exact Nat.lt_succ_self _
  · intro j hj
    rw [hids]
    exact List.mem_append.mpr (Or.inl hj)
  · intro i hi
    rw [hget i]
    exact hi

end Tokex2Proof

namespace Tokex2Proof

/-- Targets stay legal when the id set grows. -/
theorem tgtOk_mono (st st' : Tokex) (t : Option Nat)
    (h : TgtOk st t) (hsub : ∀ j, j ∈ Ids st → j ∈ Ids st') : TgtOk st' t :=
  fun j hj => hsub j (h j hj)

/-- The target of every edge of a node read from an invariant store is
legal. -/
theorem tgtOk_of_edge (st : Tokex) (hc : EdgesClosed st) (i : Nat)
    (e : Char × Option Nat) (he : e ∈ (getNode st i).next) : TgtOk st e.2 := by
  intro j hj
  cases hg : storeGet i st.store with
  | none =>
    rw [getNode, hg] at he
    cases he
  | some nd =>
    rw [getNode, hg] at he
    exact hc (i, nd) (storeGet_mem _ _ _ hg) e he j hj

/-- The value found under a key of a node of an invariant store is a
legal target. -/
theorem tgtOk_of_mapFind (st : Tokex) (hc : EdgesClosed st) (i : Nat) (k : Char)
    (t : Option Nat) (h : mapFind k (getNode st i).next = some t) : TgtOk st t :=
  tgtOk_of_edge st hc i (k, t) (mapFind_mem _ _ _ h)

/-- The knit edge loop is a pipeline step: it only writes its knit
target over dangling edges. -/
theorem stepTo_knit_edges (fuel : Nat) :
    ∀ (st : Tokex) (target : Option Nat) (cur : Nat) (visited : List (Option Nat))
      (edges : List (Char × Option Nat)) (st' : Tokex) (visited' : List (Option Nat)),
      Inv st → TgtOk st target →
      knit_edges fuel st target cur visited edges = some (st', visited') →
      StepTo st st' := by
  induction fuel with
  | zero =>
    intro st target cur visited edges st' visited' _ _ h
    cases h
  | succ n ih =>
    intro st target cur visited edges st' visited' hst htgt h
    cases edges with
    | nil =>
      replace h : some (st, visited) = some (st', visited') := h
      cases h
      exact stepTo_refl st hst
    | cons e rest =>
      obtain ⟨k, tgt⟩ := e
      cases tgt with
      | none =>
        replace h : knit_edges n (setEdge st cur k target) target cur visited rest
            = some (st', visited') := h
        have hs := stepTo_setEdge st cur k target hst htgt
        exact stepTo_trans _ _ _ hs
          (ih _ target cur visited rest st' visited' hs.1
            (tgtOk_mono _ _ _ htgt hs.2.1) h)
      | some nid =>
        replace h : (if visited.contains (some nid) then
              knit_edges n st target cur visited rest
            else
              match knit_edges n st target nid (some nid :: visited)
                  ((getNode st nid).next) with
              | none => none
              | some (st₁, vis₁) => knit_edges n st₁ target cur vis₁ rest)
            = some (st', visited') := h
        by_cases hv : visited.contains (some nid)
        · rw [if_pos hv] at h
          exact ih _ target cur visited rest st' visited' hst htgt h
        · rw [if_neg hv] at h
          cases hrec : knit_edges n st target nid (some nid :: visited)
              ((getNode st nid).next) with
          | none =>
            rw [hrec] at h
            cases h
          | some p =>
            obtain ⟨st₁, vis₁⟩ := p
            rw [hrec] at h
            have h1 := ih st target nid (some nid :: visited) _ st₁ vis₁ hst htgt hrec
            exact stepTo_trans _ _ _ h1
              (ih st₁ target cur vis₁ rest st' visited' h1.1
                (tgtOk_mono _ _ _ htgt h1.2.1) h)

/-- `knit_other_onto_end` is a pipeline step when the other fragment's
entry is a legal target. -/
theorem stepTo_knit_other_onto_end (fuel : Nat) (st : Tokex)
    (selfFirst otherFirst : Option Nat) (st' : Tokex)
    (hst : Inv st) (htgt : TgtOk st otherFirst)
    (h : knit_other_onto_end fuel st selfFirst otherFirst = some st') :
    StepTo st st' := by
  cases selfFirst with
  | none => cases h
  | some f =>
    replace h : (match knit_edges fuel st otherFirst f [otherFirst]
          ((getNode st f).next) with
        | none => none
        | some (st₁, _) => some st₁) = some st' := h
    split at h
    · cases h
    · rename_i st₁ vis₁ heq
      cases h
      exact stepTo_knit_edges fuel st otherFirst f [otherFirst] _ st' vis₁ hst htgt heq

end Tokex2Proof

namespace Tokex2Proof

/-- Unfolding equation of `suit_edges` on a nonempty edge list. -/
theorem suit_edges_succ_cons (n : Nat) (st : Tokex) (mine : Nat) (k : Char)
    (o : Option Nat) (rest : List (Char × Option Nat)) :
    suit_edges (n + 1) st mine ((k, o) :: rest) =
      match mapFind k (getNode st mine).next with
      | none => some (setEdge st mine k o)
      | some m =>
        if m = none && o = none then
          some st
        else if m.isNone || o.isNone then
          match epsTerminus n st mine with
          | none => none
          | some cur => some (setEdge st cur epsC o)
        else
          match m, o with
          | some m', some o' =>
            match suit_edges n st m' ((getNode st o').next) with
            | none => none
            | some st' => suit_edges n st' mine rest
          | _, _ => none := rfl

/-- The suit edge loop is a pipeline step: every target it writes comes
from the iterated edge list or an existing node. -/
theorem stepTo_suit_edges (fuel : Nat) :
    ∀ (st : Tokex) (mine : Nat) (edges : List (Char × Option Nat)) (st' : Tokex),
      Inv st → (∀ e ∈ edges, TgtOk st e.2) →
      suit_edges fuel st mine edges = some st' → StepTo st st' := by
  induction fuel with
  | zero =>
    intro st mine edges st' _ _ h
    cases h
  | succ n ih =>
    intro st mine edges st' hst hedges h
    cases edges with
    | nil =>
      replace h : some st = some st' := h
      cases h
      exact stepTo_refl st hst
    | cons e rest =>
      obtain ⟨k, o⟩ := e
      have ho : TgtOk st o := hedges (k, o) (List.mem_cons_self _ _)
      have hrest : ∀ e ∈ rest, TgtOk st e.2 :=
        fun e he => hedges e (List.mem_cons_of_mem _ he)
      rw [suit_edges_succ_cons] at h
      cases hm : mapFind k (getNode st mine).next with
      | none =>
        rw [hm] at h
        replace h : some (setEdge st mine k o) = some st' := h
        cases h
        exact stepTo_setEdge st mine k o hst ho
      | some m =>
        rw [hm] at h
        cases m with
        | none =>
          cases o with
          | none =>
            replace h : some st = some st' := h
            cases h
            exact stepTo_refl st hst
          | some o0 =>
            replace h : (match epsTerminus n st mine with
                | none => none
                | some cur => some (setEdge st cur epsC (some o0))) = some st' := h
            cases ht : epsTerminus n st mine with
            | none =>
              rw [ht] at h
              cases h
            | some cur =>
              rw [ht] at h
              replace h : some (setEdge st cur epsC (some o0)) = some st' := h
              cases h
              exact stepTo_setEdge st cur epsC (some o0) hst ho
        | some m0 =>
          cases o with
          | none =>
            replace h : (match epsTerminus n st mine with
                | none => none
                | some cur => some (setEdge st cur epsC none)) = some st' := h
            cases ht : epsTerminus n st mine with
            | none =>
              rw [ht] at h
              cases h
            | some cur =>
              rw [ht] at h
              replace h : some (setEdge st cur epsC none) = some st' := h
              cases h
              exact stepTo_setEdge st cur epsC none hst ho
          | some o0 =>
            replace h : (match suit_edges n st m0 ((getNode st o0).next) with
                | none => none
                | some st₁ => suit_edges n st₁ mine rest) = some st' := h
            cases hrec : suit_edges n st m0 ((getNode st o0).next) with
            | none =>
              rw [hrec] at h
              cases h
            | some st₁ =>
              rw [hrec] at h
              have h1 := ih st m0 _ st₁ hst
                (fun e he => tgtOk_of_edge st hst.2.1 o0 e he) hrec
              exact stepTo_trans _ _ _ h1
                (ih st₁ mine rest st' h1.1
                  (fun e he => tgtOk_mono _ _ _ (hrest e he) h1.2.1) h)

/-- `suit_add_recursive` is a pipeline step. -/
theorem stepTo_suit_add_recursive (fuel : Nat) (st : Tokex) (mine theirs : Nat)
    (st' : Tokex) (hst : Inv st)
    (h : suit_add_recursive fuel st mine theirs = some st') : StepTo st st' :=
  stepTo_suit_edges fuel st mine _ st' hst
    (fun e he => tgtOk_of_edge st hst.2.1 theirs e he) h

/-- The suit fold over alternation arms is a pipeline step. -/
theorem stepTo_suitFold (fuel acc : Nat) (subs : List Nat) :
    ∀ (st st' : Tokex), Inv st → suitFold fuel st acc subs = some st' →
      StepTo st st' := by
  induction subs with
  | nil =>
    intro st st' hst h
    replace h : some st = some st' := h
    cases h
    exact stepTo_refl st hst
  | cons s rest ih =>
    intro st st' hst h
    replace h : (match suit_add_recursive fuel st acc s with
        | none => none
        | some st₁ => suitFold fuel st₁ acc rest) = some st' := h
    cases hrec : suit_add_recursive fuel st acc s with
    | none =>
      rw [hrec] at h
      cases h
    | some st₁ =>
      rw [hrec] at h
      have h1 := stepTo_suit_add_recursive fuel st acc s st₁ hst hrec
      exact stepTo_trans _ _ _ h1 (ih st₁ st' h1.1 h)

end Tokex2Proof

namespace Tokex2Proof

/-- `create_node` does not change any read node (the fresh entry reads
as the default node either way). -/
theorem getNode_create_unchanged (st : Tokex) (i : Nat) :
    getNode (create_node st).1 i = getNode st i := by
  rw [getNode_create_node, getNode]
  cases hg : storeGet i st.store with
  | none => simp
  | some nd => rfl

/-- Ids missing from the id column have no stored node. -/
theorem storeGet_not_mem (l : List (Nat × NodeData)) (i : Nat)
    (h : i ∉ l.map Prod.fst) : storeGet i l = none := by
  induction l with
  | nil => rfl
  | cons p rest ih =>
    obtain ⟨k, v⟩ := p
    rw [List.map_cons] at h
    rw [storeGet_cons]
    by_cases hik : i = k
    · exact absurd (List.mem_cons.mpr (Or.inl hik)) h
    · rw [if_neg hik]
      exact ih (fun hm => h (List.mem_cons.mpr (Or.inr hm)))

/-- Under the freshness invariant, the next id reads as the default
node. -/
theorem getNode_nextId (st : Tokex) (hfr : FreshOk st) :
    getNode st st.nextId = {} := by
  rw [getNode, storeGet_not_mem]
  intro hm
  exact absurd (hfr st.nextId hm) (Nat.lt_irrefl _)

/-- A successful `alistGet` returns the value of an entry of the clone
map. -/
theorem alistGet_mem (l : List (Option Nat × Option Nat)) (x v : Option Nat)
    (h : alistGet x l = some v) : (x, v) ∈ l := by
  induction l with
  | nil => cases h
  | cons q rest ih =>
    obtain ⟨k, w⟩ := q
    rw [alistGet] at h
    by_cases hxk : x = k
    · rw [if_pos hxk] at h
      subst hxk
      cases h
      exact List.mem_cons.mpr (Or.inl rfl)
    · rw [if_neg hxk] at h
      exact List.mem_cons.mpr (Or.inr (ih h))

/-- Writing a whole node with legal edges, a legal type, and no loss of
an end type is a pipeline step. -/
theorem stepTo_setNode (st : Tokex) (j : Nat) (nd : NodeData)
    (hst : Inv st) (hnext : ∀ e ∈ nd.next, TgtOk st e.2)
    (hty : nd.ty = NodeType.normal ∨ nd.ty = NodeType.end_)
    (hkeep : (getNode st j).ty = NodeType.end_ → nd.ty = NodeType.end_) :
    StepTo st (setNode st j nd) := by
  obtain ⟨ha, hc, htyi, hfr⟩ := hst
  refine ⟨⟨?_, ?_, ?_, ?_⟩, ?_, rfl, ?_⟩
  · show (setNode st j nd).allNodes = Ids (setNode st j nd)
    rw [Ids_setNode]
    exact ha
  · intro p hp e he t het
    rw [Ids_setNode]
    rcases mem_storeSet _ _ _ _ hp with hpj | hpo
    · subst hpj
      exact hnext e he t het
    · exact hc p hpo e he t het
  · intro i
    rw [getNode_setNode]
    split
    · exact hty
    · exact htyi i
  · show FreshOk (setNode st j nd)
    intro j0 hj0
    rw [Ids_setNode] at hj0
    exact hfr j0 hj0
  · intro j0 hj0
    rw [Ids_setNode]
    exact hj0
  · intro i hi
    rw [getNode_setNode]
    split
    · next hcond =>
      rw [hcond.1] at hi
      exact hkeep hi
    · exact hi

/-- The allocation step of `duplicate_expression` is a pipeline step,
and the clone id becomes a stored id. -/
theorem stepTo_dupVisit (st : Tokex) (cid : Nat) (hst : Inv st) :
    StepTo st (dupVisit st cid).1 ∧ (dupVisit st cid).2 ∈ Ids (dupVisit st cid).1 := by
  have hcr := stepTo_create_node st hst
  have hfr1 : getNode (create_node st).1 st.nextId = {} := by
    rw [getNode_create_unchanged]
    exact getNode_nextId st hst.2.2.2
  have hty0 := hst.2.2.1 cid
  have hsn := stepTo_setNode (create_node st).1 st.nextId
    { getNode (create_node st).1 st.nextId with
        ty := (getNode st cid).ty, script := (getNode st cid).script }
    hcr.1.1
    (by
      intro e he
      rw [hfr1] at he
      cases he)
    (by
      rw [hfr1]
      exact hty0)
    (by
      rw [hfr1]
      intro hcontra
      cases hcontra)
  refine ⟨stepTo_trans _ _ _ hcr.1 hsn, ?_⟩
  show st.nextId ∈ Ids _
  apply hsn.2.1
  rw [hcr.2]
  exact List.mem_append.mpr (Or.inr (List.mem_singleton.mpr rfl))

/-- Unfolding equation of `dupPhase1` on a nonempty queue. -/
theorem dupPhase1_succ_cons (n : Nat) (st : Tokex)
    (o2n : List (Option Nat × Option Nat)) (cur : Option Nat)
    (rest : List (Option Nat)) :
    dupPhase1 (n + 1) st o2n (cur :: rest) =
      if (alistGet cur o2n).isSome then dupPhase1 n st o2n rest
      else
        match cur with
        | none => dupPhase1 n st (o2n ++ [(none, none)]) rest
        | some cid =>
          dupPhase1 n (dupVisit st cid).1
            (o2n ++ [(some cid, some (dupVisit st cid).2)])
            (rest ++ (getNode st cid).next.map (·.2)) := rfl

/-- Phase one of `duplicate_expression` is a pipeline step, and every
entry of the produced clone map has a legal new side. -/
theorem stepTo_dupPhase1 (fuel : Nat) :
    ∀ (st : Tokex) (o2n : List (Option Nat × Option Nat))
      (queue : List (Option Nat)) (st' : Tokex)
      (o2n' : List (Option Nat × Option Nat)),
      Inv st → (∀ q ∈ o2n, TgtOk st q.2) →
      dupPhase1 fuel st o2n queue = some (st', o2n') →
      StepTo st st' ∧ (∀ q ∈ o2n', TgtOk st' q.2) := by
  induction fuel with
  | zero =>
    intro st o2n queue st' o2n' _ _ h
    cases h
  | succ n ih =>
    intro st o2n queue st' o2n' hst hrange h
    cases queue with
    | nil =>
      replace h : some (st, o2n) = some (st', o2n') := h
      cases h
      exact ⟨stepTo_refl st hst, hrange⟩
    | cons cur rest =>
      rw [dupPhase1_succ_cons] at h
      by_cases hin : (alistGet cur o2n).isSome
      · rw [if_pos hin] at h
        exact ih st o2n rest st' o2n' hst hrange h
      · rw [if_neg hin] at h
        cases cur with
        | none =>
          refine ih st _ rest st' o2n' hst ?_ h
          intro q hq
          rcases List.mem_append.mp hq with hqo | hqn
          · exact hrange q hqo
          · rcases List.mem_singleton.mp hqn with rfl
            intro j hj
            cases hj
        | some cid =>
          obtain ⟨hvstep, hvmem⟩ := stepTo_dupVisit st cid hst
          have hrec := ih (dupVisit st cid).1
            (o2n ++ [(some cid, some (dupVisit st cid).2)])
            (rest ++ (getNode st cid).next.map (·.2)) st' o2n' hvstep.1
            (by
              intro q hq
              rcases List.mem_append.mp hq with hqo | hqn
              · exact tgtOk_mono _ _ _ (hrange q hqo) hvstep.2.1
              · rcases List.mem_singleton.mp hqn with rfl
                intro j hj
                cases hj
                exact hvmem) h
          exact ⟨stepTo_trans _ _ _ hvstep hrec.1, hrec.2⟩

end Tokex2Proof

namespace Tokex2Proof

/-- The edge-copy loop of phase two of `duplicate_expression` is a
pipeline step: every written target is a new side of the clone map. -/
theorem stepTo_dupEdges (o2n : List (Option Nat × Option Nat)) (nid : Nat)
    (edges : List (Char × Option Nat)) :
    ∀ (st st' : Tokex), Inv st → (∀ q ∈ o2n, TgtOk st q.2) →
      dupEdges st o2n nid edges = some st' → StepTo st st' := by
  induction edges with
  | nil =>
    intro st st' hst _ h
    replace h : some st = some st' := h
    cases h
    exact stepTo_refl st hst
  | cons e rest ih =>
    intro st st' hst hrange h
    obtain ⟨k, t⟩ := e
    replace h : (match alistGet t o2n with
        | none => none
        | some newT => dupEdges (setEdge st nid k newT) o2n nid rest) = some st' := h
    cases hg : alistGet t o2n with
    | none =>
      rw [hg] at h
      cases h
    | some newT =>
      rw [hg] at h
      have hok : TgtOk st newT := hrange (t, newT) (alistGet_mem _ _ _ hg)
      have hs := stepTo_setEdge st nid k newT hst hok
      exact stepTo_trans _ _ _ hs
        (ih _ st' hs.1 (fun q hq => tgtOk_mono _ _ _ (hrange q hq) hs.2.1) h)

/-- Phase two of `duplicate_expression` is a pipeline step. -/
theorem stepTo_dupPhase2 (o2n : List (Option Nat × Option Nat)) :
    ∀ (work : List (Option Nat × Option Nat)) (st st' : Tokex),
      Inv st → (∀ q ∈ o2n, TgtOk st q.2) →
      dupPhase2 st o2n work = some st' → StepTo st st' := by
  intro work
  induction work with
  | nil =>
    intro st st' hst _ h
    replace h : some st = some st' := h
    cases h
    exact stepTo_refl st hst
  | cons q rest ih =>
    intro st st' hst hrange h
    obtain ⟨old, newO⟩ := q
    cases old with
    | none =>
      cases newO with
      | none =>
        replace h : dupPhase2 st o2n rest = some st' := h
        exact ih st st' hst hrange h
      | some nid =>
        replace h : dupPhase2 st o2n rest = some st' := h
        exact ih st st' hst hrange h
    | some oid =>
      cases newO with
      | none =>
        replace h : dupPhase2 st o2n rest = some st' := h
        exact ih st st' hst hrange h
      | some nid =>
        replace h : (match dupEdges st o2n nid ((getNode st oid).next) with
            | none => none
            | some st₁ => dupPhase2 st₁ o2n rest) = some st' := h
        cases hrec : dupEdges st o2n nid ((getNode st oid).next) with
        | none =>
          rw [hrec] at h
          cases h
        | some st₁ =>
          rw [hrec] at h
          have h1 := stepTo_dupEdges o2n nid _ st st₁ hst hrange hrec
          exact stepTo_trans _ _ _ h1
            (ih st₁ st' h1.1 (fun q hq => tgtOk_mono _ _ _ (hrange q hq) h1.2.1) h)

/-- `duplicate_expression` is a pipeline step whose returned entry is a
legal target. -/
theorem stepTo_duplicate_expression (fuel : Nat) (st : Tokex) (first : Option Nat)
    (st' : Tokex) (newFirst : Option Nat) (hst : Inv st)
    (h : duplicate_expression fuel st first = some (st', newFirst)) :
    StepTo st st' ∧ TgtOk st' newFirst := by
  unfold duplicate_expression at h
  cases hp1 : dupPhase1 fuel st [] [first] with
  | none =>
    rw [hp1] at h
    cases h
  | some p =>
    obtain ⟨st₁, o2n⟩ := p
    rw [hp1] at h
    replace h : (match dupPhase2 st₁ o2n o2n with
        | none => none
        | some st₂ =>
          match alistGet first o2n with
          | none => none
          | some nf => some (st₂, nf)) = some (st', newFirst) := h
    obtain ⟨h1, hrange1⟩ := stepTo_dupPhase1 fuel st [] [first] st₁ o2n hst
      (by intro q hq; cases hq) hp1
    cases hp2 : dupPhase2 st₁ o2n o2n with
    | none =>
      rw [hp2] at h
      cases h
    | some st₂ =>
      rw [hp2] at h
      have h2 := stepTo_dupPhase2 o2n o2n st₁ st₂ h1.1 hrange1 hp2
      cases hg : alistGet first o2n with
      | none =>
        rw [hg] at h
        cases h
      | some nf =>
        rw [hg] at h
        cases h
        refine ⟨stepTo_trans _ _ _ h1 h2, ?_⟩
        exact tgtOk_mono _ _ _ (hrange1 (first, newFirst) (alistGet_mem _ _ _ hg)) h2.2.1

end Tokex2Proof

namespace Tokex2Proof

/-- Unfolding equation of `closeBfs` on a nonempty queue. -/
theorem closeBfs_succ_cons (n : Nat) (st : Tokex) (closure : List Nat)
    (cur : Option Nat) (queue : List (Option Nat)) :
    closeBfs (n + 1) st closure (cur :: queue) =
      match cur with
      | none => closeBfs n st closure queue
      | some cid =>
        match mapFind epsC (getNode st cid).next with
        | none => closeBfs n st closure queue
        | some none => none
        | some (some tid) =>
          if closure.contains tid then closeBfs n st closure queue
          else
            let st1 := if (getNode st tid).ty ≠ NodeType.normal
                       then setType st cid (getNode st tid).ty else st
            let st2 := eraseEdge st1 cid epsC
            closeBfs n st2 (closure ++ [tid]) (queue ++ [some tid]) := rfl

/-- The closure walk of `close_node` is a pipeline step. -/
theorem stepTo_closeBfs (fuel : Nat) :
    ∀ (st : Tokex) (closure : List Nat) (queue : List (Option Nat))
      (st' : Tokex) (closure' : List Nat),
      Inv st → closeBfs fuel st closure queue = some (st', closure') →
      StepTo st st' := by
  induction fuel with
  | zero =>
    intro st closure queue st' closure' _ h
    cases h
  | succ n ih =>
    intro st closure queue st' closure' hst h
    cases queue with
    | nil =>
      replace h : some (st, closure) = some (st', closure') := h
      cases h
      exact stepTo_refl st hst
    | cons cur rest =>
      cases cur with
      | none =>
        replace h : closeBfs n st closure rest = some (st', closure') := h
        exact ih st closure rest st' closure' hst h
      | some cid =>
        replace h : (match mapFind epsC (getNode st cid).next with
            | none => closeBfs n st closure rest
            | some none => none
            | some (some tid) =>
              if closure.contains tid then closeBfs n st closure rest
              else
                closeBfs n
                  (eraseEdge (if (getNode st tid).ty ≠ NodeType.normal
                    then setType st cid (getNode st tid).ty else st) cid epsC)
                  (closure ++ [tid]) (rest ++ [some tid]))
            = some (st', closure') := h
        cases hf : mapFind epsC (getNode st cid).next with
        | none =>
          rw [hf] at h
          exact ih st closure rest st' closure' hst h
        | some tgt =>
          rw [hf] at h
          cases tgt with
          | none => cases h
          | some tid =>
            replace h : (if closure.contains tid then closeBfs n st closure rest
                else
                  closeBfs n
                    (eraseEdge (if (getNode st tid).ty ≠ NodeType.normal
                      then setType st cid (getNode st tid).ty else st) cid epsC)
                    (closure ++ [tid]) (rest ++ [some tid]))
                = some (st', closure') := h
            cases hcl : closure.contains tid with
            | true =>
              rw [hcl] at h
              replace h : closeBfs n st closure rest = some (st', closure') := h
              exact ih st closure rest st' closure' hst h
            | false =>
              rw [hcl] at h
              rcases hst.2.2.1 tid with hn | he
              · rw [hn] at h
                replace h : closeBfs n (eraseEdge st cid epsC)
                    (closure ++ [tid]) (rest ++ [some tid]) = some (st', closure') := h
                have h2 := stepTo_eraseEdge st cid epsC hst
                exact stepTo_trans _ _ _ h2
                  (ih _ (closure ++ [tid]) (rest ++ [some tid]) st' closure' h2.1 h)
              · rw [he] at h
                replace h : closeBfs n
                    (eraseEdge (setType st cid NodeType.end_) cid epsC)
                    (closure ++ [tid]) (rest ++ [some tid]) = some (st', closure') := h
                have h1 := stepTo_setType_end st cid hst
                have h2 := stepTo_eraseEdge (setType st cid NodeType.end_) cid epsC h1.1
                have h12 := stepTo_trans _ _ _ h1 h2
                exact stepTo_trans _ _ _ h12
                  (ih _ (closure ++ [tid]) (rest ++ [some tid]) st' closure' h12.1 h)

/-- Unfolding equation of `closeMergeEdges` on a nonempty edge list at
positive fuel. -/
theorem closeMergeEdges_succ_cons (m : Nat) (st : Tokex) (c nn : Nat) (k : Char)
    (t : Option Nat) (rest : List (Char × Option Nat)) :
    closeMergeEdges (m + 1) st c nn ((k, t) :: rest) =
      match mapFind k (getNode st c).next with
      | none => closeMergeEdges m (setEdge st c k t) c nn rest
      | some existing =>
        if existing = some c && t = some nn then
          closeMergeEdges m st c nn rest
        else
          match existing with
          | none => none
          | some e0 =>
            match epsTerminus m st e0 with
            | none => none
            | some cursor =>
              match mapFind k (getNode (setEdge st cursor epsC t) c).next with
              | none => none
              | some rd =>
                match close_node m (setEdge st cursor epsC t) rd with
                | none => none
                | some st₂ => closeMergeEdges m st₂ c nn rest := rfl

/-- Tail of one `closeMergeEdges` conflict step, after the recursive
`close_node` call is settled. -/
def cmeAfterClose (m : Nat) (res : Option Tokex) (c nn : Nat)
    (rest : List (Char × Option Nat)) : Option Tokex :=
  match res with
  | none => none
  | some st₂ => closeMergeEdges m st₂ c nn rest

/-- Tail of one `closeMergeEdges` conflict step, after the re-read of
the conflicting key is settled. -/
def cmeAfterRead (m : Nat) (stx : Tokex) (rd : Option (Option Nat)) (c nn : Nat)
    (rest : List (Char × Option Nat)) : Option Tokex :=
  match rd with
  | none => none
  | some rd0 => cmeAfterClose m (close_node m stx rd0) c nn rest

/-- Tail of one `closeMergeEdges` conflict step, after the epsilon-chain
walk is settled. -/
def cmeAfterTerm (m : Nat) (st : Tokex) (c nn : Nat) (k : Char) (t : Option Nat)
    (rest : List (Char × Option Nat)) (cursorRes : Option Nat) : Option Tokex :=
  match cursorRes with
  | none => none
  | some cursor =>
    cmeAfterRead m (setEdge st cursor epsC t)
      (mapFind k (getNode (setEdge st cursor epsC t) c).next) c nn rest

/-- The conflict branch of one `closeMergeEdges` step as a function of
the existing destination. -/
def closeMergeTail (m : Nat) (st : Tokex) (c nn : Nat) (k : Char) (t : Option Nat)
    (rest : List (Char × Option Nat)) (existing : Option Nat) : Option Tokex :=
  match existing with
  | none => none
  | some e0 => cmeAfterTerm m st c nn k t rest (epsTerminus m st e0)

/-- Unfolding equation of `closeMergeEdges` when the key is absent. -/
theorem closeMergeEdges_notfound (m : Nat) (st : Tokex) (c nn : Nat) (k : Char)
    (t : Option Nat) (rest : List (Char × Option Nat))
    (hf : mapFind k (getNode st c).next = none) :
    closeMergeEdges (m + 1) st c nn ((k, t) :: rest) =
      closeMergeEdges m (setEdge st c k t) c nn rest := by
  rw [closeMergeEdges_succ_cons, hf]

/-- Unfolding equation of `closeMergeEdges` when the key is present. -/
theorem closeMergeEdges_found (m : Nat) (st : Tokex) (c nn : Nat) (k : Char)
    (t : Option Nat) (rest : List (Char × Option Nat)) (existing : Option Nat)
    (hf : mapFind k (getNode st c).next = some existing) :
    closeMergeEdges (m + 1) st c nn ((k, t) :: rest) =
      if existing = some c && t = some nn then
        closeMergeEdges m st c nn rest
      else closeMergeTail m st c nn k t rest existing := by
  rw [closeMergeEdges_succ_cons]
  simp only [hf]
  rfl

/-- The three `close_node` loops are pipeline steps. -/
theorem stepTo_close_mutual (fuel : Nat) :
    (∀ (st : Tokex) (cur : Option Nat) (st' : Tokex), Inv st →
      close_node fuel st cur = some st' → StepTo st st')
    ∧ (∀ (st : Tokex) (c : Nat) (nodes : List Nat) (st' : Tokex), Inv st →
      closeMerge fuel st c nodes = some st' → StepTo st st')
    ∧ (∀ (st : Tokex) (c nn : Nat) (edges : List (Char × Option Nat)) (st' : Tokex),
      Inv st → (∀ e ∈ edges, TgtOk st e.2) →
      closeMergeEdges fuel st c nn edges = some st' → StepTo st st') := by
  induction fuel with
  | zero =>
    refine ⟨?_, ?_, ?_⟩
    · intro st cur st' _ h
      cases h
    · intro st c nodes st' _ h
      cases h
    · intro st c nn edges st' hst _ h
      cases edges with
      | nil =>
        replace h : some st = some st' := h
        cases h
        exact stepTo_refl st hst
      | cons e rest =>
        obtain ⟨k, t⟩ := e
        cases h
  | succ n ih =>
    obtain ⟨ihn, ihm, ihe⟩ := ih
    have hedge : ∀ (st : Tokex) (c nn : Nat) (edges : List (Char × Option Nat))
        (st' : Tokex), Inv st → (∀ e ∈ edges, TgtOk st e.2) →
        closeMergeEdges (n + 1) st c nn edges = some st' → StepTo st st' := by
      intro st c nn edges st' hst hedges h
      cases edges with
      | nil =>
        replace h : some st = some st' := h
        cases h
        exact stepTo_refl st hst
      | cons e rest =>
        obtain ⟨k, t⟩ := e
        have ht : TgtOk st t := hedges (k, t) (List.mem_cons_self _ _)
        have hrest : ∀ e ∈ rest, TgtOk st e.2 :=
          fun e he => hedges e (List.mem_cons_of_mem _ he)
        cases hf : mapFind k (getNode st c).next with
        | none =>
          rw [closeMergeEdges_notfound n st c nn k t rest hf] at h
          have hs := stepTo_setEdge st c k t hst ht
          exact stepTo_trans _ _ _ hs
            (ihe _ c nn rest st' hs.1
              (fun e he => tgtOk_mono _ _ _ (hrest e he) hs.2.1) h)
        | some existing =>
          rw [closeMergeEdges_found n st c nn k t rest existing hf] at h
          cases hb : (decide (existing = some c) && decide (t = some nn)) with
          | true =>
            rw [hb] at h
            replace h : closeMergeEdges n st c nn rest = some st' := h
            exact ihe st c nn rest st' hst hrest h
          | false =>
            rw [hb] at h
            replace h : closeMergeTail n st c nn k t rest existing = some st' := h
            cases existing with
            | none =>
              replace h : (none : Option Tokex) = some st' := h
              cases h
            | some e0 =>
              replace h : cmeAfterTerm n st c nn k t rest (epsTerminus n st e0)
                  = some st' := h
              cases hterm : epsTerminus n st e0 with
              | none =>
                rw [hterm] at h
                replace h : (none : Option Tokex) = some st' := h
                cases h
              | some cursor =>
                rw [hterm] at h
                replace h : cmeAfterRead n (setEdge st cursor epsC t)
                    (mapFind k (getNode (setEdge st cursor epsC t) c).next)
                    c nn rest = some st' := h
                have hs := stepTo_setEdge st cursor epsC t hst ht
                cases hrd : mapFind k (getNode (setEdge st cursor epsC t) c).next with
                | none =>
                  rw [hrd] at h
                  replace h : (none : Option Tokex) = some st' := h
                  cases h
                | some rd =>
                  rw [hrd] at h
                  replace h : cmeAfterClose n
                      (close_node n (setEdge st cursor epsC t) rd) c nn rest
                      = some st' := h
                  cases hcn : close_node n (setEdge st cursor epsC t) rd with
                  | none =>
                    rw [hcn] at h
                    replace h : (none : Option Tokex) = some st' := h
                    cases h
                  | some st₂ =>
                    rw [hcn] at h
                    replace h : closeMergeEdges n st₂ c nn rest = some st' := h
                    have h2 := ihn _ rd st₂ hs.1 hcn
                    have h12 := stepTo_trans _ _ _ hs h2
                    exact stepTo_trans _ _ _ h12
                      (ihe st₂ c nn rest st' h12.1
                        (fun e he => tgtOk_mono _ _ _ (hrest e he) h12.2.1) h)
    have hmerge : ∀ (st : Tokex) (c : Nat) (nodes : List Nat) (st' : Tokex),
        Inv st → closeMerge (n + 1) st c nodes = some st' → StepTo st st' := by
      intro st c nodes st' hst h
      cases nodes with
      | nil =>
        replace h : some st = some st' := h
        cases h
        exact stepTo_refl st hst
      | cons nn rest =>
        replace h : (match closeMergeEdges n st c nn ((getNode st nn).next) with
            | none => none
            | some st₁ => closeMerge n st₁ c rest) = some st' := h
        cases hrec : closeMergeEdges n st c nn ((getNode st nn).next) with
        | none =>
          rw [hrec] at h
          cases h
        | some st₁ =>
          rw [hrec] at h
          have h1 := ihe st c nn _ st₁ hst
            (fun e he => tgtOk_of_edge st hst.2.1 nn e he) hrec
          exact stepTo_trans _ _ _ h1 (ihm st₁ c rest st' h1.1 h)
    refine ⟨?_, hmerge, hedge⟩
    intro st cur st' hst h
    cases cur with
    | none =>
      replace h : some st = some st' := h
      cases h
      exact stepTo_refl st hst
    | some c =>
      replace h : (if mapContains epsC (getNode st c).next then
          match closeBfs n st [] [some c] with
          | none => none
          | some (st₁, closure) => closeMerge n st₁ c (sortNat closure)
        else some st) = some st' := h
      by_cases hcont : mapContains epsC (getNode st c).next
      · rw [if_pos hcont] at h
        cases hb : closeBfs n st [] [some c] with
        | none =>
          rw [hb] at h
          cases h
        | some p =>
          obtain ⟨st₁, closure⟩ := p
          rw [hb] at h
          have h1 := stepTo_closeBfs n st [] [some c] st₁ closure hst hb
          exact stepTo_trans _ _ _ h1 (ihm st₁ c (sortNat closure) st' h1.1 h)
      · rw [if_neg hcont] at h
        replace h : some st = some st' := h
        cases h
        exact stepTo_refl st hst

end Tokex2Proof

namespace Tokex2Proof

/-- Closing every node of a list in turn is a pipeline step. -/
theorem stepTo_closeAll (fuel : Nat) (nodes : List Nat) :
    ∀ (st st' : Tokex), Inv st → closeAll fuel st nodes = some st' →
      StepTo st st' := by
  induction nodes with
  | nil =>
    intro st st' hst h
    replace h : some st = some st' := h
    cases h
    exact stepTo_refl st hst
  | cons n rest ih =>
    intro st st' hst h
    replace h : (match close_node fuel st (some n) with
        | none => none
        | some st₁ => closeAll fuel st₁ rest) = some st' := h
    cases hc : close_node fuel st (some n) with
    | none =>
      rw [hc] at h
      cases h
    | some st₁ =>
      rw [hc] at h
      have h1 := (stepTo_close_mutual fuel).1 st (some n) st₁ hst hc
      exact stepTo_trans _ _ _ h1 (ih st₁ st' h1.1 h)

/-- `remove_epsilons` is a pipeline step: the collection phase only
reads the state, and the per-node closures compose. -/
theorem stepTo_remove_epsilons (fuel : Nat) (st : Tokex) (first : Option Nat)
    (st' : Tokex) (hst : Inv st)
    (h : remove_epsilons fuel st first = some st') : StepTo st st' := by
  unfold remove_epsilons at h
  cases hc : collectNodes fuel st [first] [first] with
  | none =>
    rw [hc] at h
    cases h
  | some all =>
    rw [hc] at h
    exact stepTo_closeAll fuel _ st st' hst h

/-- The knit fold over the fragment list is a pipeline step that keeps
the front fragment. -/
theorem stepTo_knitFold (fuel front : Nat) (nxts : List Nat) :
    ∀ (st st' : Tokex) (front' : Nat), Inv st → (∀ x ∈ nxts, x ∈ Ids st) →
      knitFold fuel st front nxts = some (st', front') →
      StepTo st st' ∧ front' = front := by
  induction nxts with
  | nil =>
    intro st st' front' hst _ h
    replace h : some (st, front) = some (st', front') := h
    cases h
    exact ⟨stepTo_refl st hst, rfl⟩
  | cons nxt rest ih =>
    intro st st' front' hst hxs h
    replace h : (match knit_other_onto_end fuel st (some front) (some nxt) with
        | none => none
        | some st₁ => knitFold fuel st₁ front rest) = some (st', front') := h
    cases hk : knit_other_onto_end fuel st (some front) (some nxt) with
    | none =>
      rw [hk] at h
      cases h
    | some st₁ =>
      rw [hk] at h
      have h1 := stepTo_knit_other_onto_end fuel st (some front) (some nxt) st₁ hst
        (by
          intro j hj
          cases hj
          exact hxs nxt (List.mem_cons_self _ _)) hk
      obtain ⟨h2, hfr⟩ := ih st₁ st' front' h1.1
        (fun x hx => h1.2.1 x (hxs x (List.mem_cons_of_mem _ hx))) h
      exact ⟨stepTo_trans _ _ _ h1 h2, hfr⟩

end Tokex2Proof

namespace Tokex2Proof

/-- The per-token dispatch of the scan loop of `Tokex::compile`, split
out of `compileLoop` so that one unfolding step at a time can be
reasoned about. -/
def compileTok (fuel : Nat) (st : Tokex) (pattern : List Char)
    (i endIdx : Nat) (revExprs : List Nat) (c : Char) : Option (Tokex × List Nat) :=
  if is_escape c then
    match pattern.get? (i + 1) with
    | none => none
    | some lit =>
      let (st', n) := create_node st
      let st' := setEdge st' n lit none
      compileLoop fuel st' pattern (i + 2) endIdx (n :: revExprs)
  else if is_subexpr_open c then
    match scanDelims fuel pattern (i + 1) endIdx 1 [i] with
    | none => none
    | some (delims, closeIdx) =>
      match compileSegs fuel st pattern delims with
      | none => none
      | some (st', subs) =>
        match subs with
        | [] => none
        | s0 :: srest =>
          match suitFold fuel st' s0 srest with
          | none => none
          | some st'' =>
            compileLoop fuel st'' pattern (closeIdx + 1) endIdx (s0 :: revExprs)
  else if is_wildcard c then
    let (st', n) := create_node st
    let st' := setEdge st' n wildC none
    compileLoop fuel st' pattern (i + 1) endIdx (n :: revExprs)
  else if is_optional c then
    match revExprs with
    | [] => none
    | b :: _ =>
      compileLoop fuel (setEdge st b epsC none) pattern (i + 1) endIdx revExprs
  else if is_star c then
    match revExprs with
    | [] => none
    | b :: _ =>
      match knit_other_onto_end fuel st (some b) (some b) with
      | none => none
      | some st' =>
        compileLoop fuel (setEdge st' b epsC none) pattern (i + 1) endIdx revExprs
  else if is_plus c then
    match revExprs with
    | [] => none
    | b :: _ =>
      match duplicate_expression fuel st (some b) with
      | none => none
      | some (st', dupFirst) =>
        match dupFirst with
        | none => none
        | some d =>
          match knit_other_onto_end fuel st' (some d) (some d) with
          | none => none
          | some st'' =>
            compileLoop fuel (setEdge st'' d epsC none) pattern (i + 1) endIdx
              (d :: revExprs)
  else
    let (st', n) := create_node st
    let st' := setEdge st' n c none
    compileLoop fuel st' pattern (i + 1) endIdx (n :: revExprs)

end Tokex2Proof

namespace Tokex2Proof

/-- The whole parser-and-assembler phase of `Tokex::compile` is a
pipeline step, and every fragment entry it returns is a stored id. -/
theorem stepTo_compile_mutual (fuel : Nat) :
    (∀ (st : Tokex) (pattern : List Char) (i endIdx : Nat) (revExprs : List Nat)
        (st' : Tokex) (revExprs' : List Nat), Inv st →
        (∀ x ∈ revExprs, x ∈ Ids st) →
        compileLoop fuel st pattern i endIdx revExprs = some (st', revExprs') →
        StepTo st st' ∧ ∀ x ∈ revExprs', x ∈ Ids st')
    ∧ (∀ (st : Tokex) (pattern : List Char) (delims : List Nat)
        (st' : Tokex) (subs : List Nat), Inv st →
        compileSegs fuel st pattern delims = some (st', subs) →
        StepTo st st' ∧ ∀ x ∈ subs, x ∈ Ids st')
    ∧ (∀ (st : Tokex) (pattern : List Char) (b e : Nat) (st' : Tokex) (f : Nat),
        Inv st → compileRange fuel st pattern b e = some (st', f) →
        StepTo st st' ∧ f ∈ Ids st') := by
  induction fuel with
  | zero =>
    refine ⟨?_, ?_, ?_⟩
    · intro st pattern i endIdx revExprs st' revExprs' _ _ h
      cases h
    · intro st pattern delims st' subs _ h
      cases h
    · intro st pattern b e st' f _ h
      cases h
  | succ fuel ih =>
    refine ⟨?_, ?_, ?_⟩
    · -- compileLoop
      intro st pattern i endIdx revExprs st' revExprs' hst hre h
      replace h : (if i ≥ endIdx then some (st, revExprs)
          else
            match pattern.get? i with
            | none => none
            | some c => compileTok fuel st pattern i endIdx revExprs c)
          = some (st', revExprs') := h
      by_cases hend : i ≥ endIdx
      · rw [if_pos hend] at h
        cases h
        exact ⟨stepTo_refl st hst, hre⟩
      · rw [if_neg hend] at h
        cases hg : pattern.get? i with
        | none =>
          rw [hg] at h
          cases h
        | some c =>
          rw [hg] at h
          replace h : compileTok fuel st pattern i endIdx revExprs c
              = some (st', revExprs') := h
          unfold compileTok at h
          cases hesc : is_escape c with
          | true =>
            rw [hesc, if_pos rfl] at h
            cases hlit : pattern.get? (i + 1) with
            | none =>
              rw [hlit] at h
              cases h
            | some lit =>
              rw [hlit] at h
              replace h : compileLoop fuel
                  (setEdge (create_node st).1 (create_node st).2 lit none)
                  pattern (i + 2) endIdx ((create_node st).2 :: revExprs)
                  = some (st', revExprs') := h
              obtain ⟨hc, hcIds⟩ := stepTo_create_node st hst
              have hnmem : (create_node st).2 ∈ Ids (create_node st).1 := by
                rw [hcIds]
                exact List.mem_append_right _ (List.mem_singleton_self _)
              have hse := stepTo_setEdge (create_node st).1 (create_node st).2 lit
                none hc.1 (fun j hj => by cases hj)
              obtain ⟨h2, hmem2⟩ := ih.1 _ pattern (i + 2) endIdx _ st' revExprs'
                hse.1
                (by
                  intro x hx
                  rcases List.mem_cons.mp hx with rfl | hx
                  · exact hse.2.1 _ hnmem
                  · exact hse.2.1 x (hc.2.1 x (hre x hx)))
                h
              exact ⟨stepTo_trans _ _ _ (stepTo_trans _ _ _ hc hse) h2, hmem2⟩
          | false =>
            rw [hesc, if_neg Bool.false_ne_true] at h
            cases hop : is_subexpr_open c with
            | true =>
              rw [hop, if_pos rfl] at h
              cases hscan : scanDelims fuel pattern (i + 1) endIdx 1 [i] with
              | none =>
                rw [hscan] at h
                cases h
              | some dp =>
                obtain ⟨delims, closeIdx⟩ := dp
                rw [hscan] at h
                replace h : (match compileSegs fuel st pattern delims with
                    | none => none
                    | some (st₁, subs) =>
                      match subs with
                      | [] => none
                      | s0 :: srest =>
                        match suitFold fuel st₁ s0 srest with
                        | none => none
                        | some st₂ =>
                          compileLoop fuel st₂ pattern (closeIdx + 1) endIdx
                            (s0 :: revExprs))
                    = some (st', revExprs') := h
                cases hsegs : compileSegs fuel st pattern delims with
                | none =>
                  rw [hsegs] at h
                  cases h
                | some p =>
                  obtain ⟨st₁, subs⟩ := p
                  rw [hsegs] at h
                  obtain ⟨h1, hsubs⟩ := ih.2.1 st pattern delims st₁ subs hst hsegs
                  cases subs with
                  | nil =>
                    replace h : (none : Option (Tokex × List Nat))
                        = some (st', revExprs') := h
                    cases h
                  | cons s0 srest =>
                    replace h : (match suitFold fuel st₁ s0 srest with
                        | none => none
                        | some st₂ =>
                          compileLoop fuel st₂ pattern (closeIdx + 1) endIdx
                            (s0 :: revExprs)) = some (st', revExprs') := h
                    cases hsf : suitFold fuel st₁ s0 srest with
                    | none =>
                      rw [hsf] at h
                      cases h
                    | some st₂ =>
                      rw [hsf] at h
                      have h2 := stepTo_suitFold fuel s0 srest st₁ st₂ h1.1 hsf
                      obtain ⟨h3, hmem3⟩ := ih.1 st₂ pattern (closeIdx + 1) endIdx
                        (s0 :: revExprs) st' revExprs' h2.1
                        (by
                          intro x hx
                          rcases List.mem_cons.mp hx with rfl | hx
                          · exact h2.2.1 x (hsubs x (List.mem_cons_self _ _))
                          · exact h2.2.1 x (h1.2.1 x (hre x hx)))
                        h
                      exact ⟨stepTo_trans _ _ _ (stepTo_trans _ _ _ h1 h2) h3, hmem3⟩
            | false =>
              rw [hop, if_neg Bool.false_ne_true] at h
              cases hwild : is_wildcard c with
              | true =>
                rw [hwild, if_pos rfl] at h
                replace h : compileLoop fuel
                    (setEdge (create_node st).1 (create_node st).2 wildC none)
                    pattern (i + 1) endIdx ((create_node st).2 :: revExprs)
                    = some (st', revExprs') := h
                obtain ⟨hc, hcIds⟩ := stepTo_create_node st hst
                have hnmem : (create_node st).2 ∈ Ids (create_node st).1 := by
                  rw [hcIds]
                  exact List.mem_append_right _ (List.mem_singleton_self _)
                have hse := stepTo_setEdge (create_node st).1 (create_node st).2
                  wildC none hc.1 (fun j hj => by cases hj)
                obtain ⟨h2, hmem2⟩ := ih.1 _ pattern (i + 1) endIdx _ st' revExprs'
                  hse.1
                  (by
                    intro x hx
                    rcases List.mem_cons.mp hx with rfl | hx
                    · exact hse.2.1 _ hnmem
                    · exact hse.2.1 x (hc.2.1 x (hre x hx)))
                  h
                exact ⟨stepTo_trans _ _ _ (stepTo_trans _ _ _ hc hse) h2, hmem2⟩
              | false =>
                rw [hwild, if_neg Bool.false_ne_true] at h
                cases hopt : is_optional c with
                | true =>
                  rw [hopt, if_pos rfl] at h
                  cases revExprs with
                  | nil =>
                    replace h : (none : Option (Tokex × List Nat))
                        = some (st', revExprs') := h
                    cases h
                  | cons b tail =>
                    replace h : compileLoop fuel (setEdge st b epsC none) pattern
                        (i + 1) endIdx (b :: tail) = some (st', revExprs') := h
                    have hse := stepTo_setEdge st b epsC none hst
                      (fun j hj => by cases hj)
                    obtain ⟨h2, hmem2⟩ := ih.1 _ pattern (i + 1) endIdx _ st'
                      revExprs' hse.1
                      (fun x hx => hse.2.1 x (hre x hx)) h
                    exact ⟨stepTo_trans _ _ _ hse h2, hmem2⟩
                | false =>
                  rw [hopt, if_neg Bool.false_ne_true] at h
                  cases hstar : is_star c with
                  | true =>
                    rw [hstar, if_pos rfl] at h
                    cases revExprs with
                    | nil =>
                      replace h : (none : Option (Tokex × List Nat))
                          = some (st', revExprs') := h
                      cases h
                    | cons b tail =>
                      replace h : (match knit_other_onto_end fuel st (some b)
                            (some b) with
                          | none => none
                          | some st₁ =>
                            compileLoop fuel (setEdge st₁ b epsC none) pattern
                              (i + 1) endIdx (b :: tail))
                          = some (st', revExprs') := h
                      cases hk : knit_other_onto_end fuel st (some b) (some b) with
                      | none =>
                        rw [hk] at h
                        cases h
                      | some st₁ =>
                        rw [hk] at h
                        replace h : compileLoop fuel (setEdge st₁ b epsC none)
                            pattern (i + 1) endIdx (b :: tail)
                            = some (st', revExprs') := h
                        have h1 := stepTo_knit_other_onto_end fuel st (some b)
                          (some b) st₁ hst
                          (by
                            intro j hj
                            cases hj
                            exact hre b (List.mem_cons_self _ _)) hk
                        have hse := stepTo_setEdge st₁ b epsC none h1.1
                          (fun j hj => by cases hj)
                        obtain ⟨h2, hmem2⟩ := ih.1 _ pattern (i + 1) endIdx _ st'
                          revExprs' hse.1
                          (fun x hx => hse.2.1 x (h1.2.1 x (hre x hx))) h
                        exact ⟨stepTo_trans _ _ _ (stepTo_trans _ _ _ h1 hse) h2,
                          hmem2⟩
                  | false =>
                    rw [hstar, if_neg Bool.false_ne_true] at h
                    cases hplus : is_plus c with
                    | true =>
                      rw [hplus, if_pos rfl] at h
                      cases revExprs with
                      | nil =>
                        replace h : (none : Option (Tokex × List Nat))
                            = some (st', revExprs') := h
                        cases h
                      | cons b tail =>
                        replace h : (match duplicate_expression fuel st (some b) with
                            | none => none
                            | some (st₁, dupFirst) =>
                              match dupFirst with
                              | none => none
                              | some d =>
                                match knit_other_onto_end fuel st₁ (some d)
                                    (some d) with
                                | none => none
                                | some st₂ =>
                                  compileLoop fuel (setEdge st₂ d epsC none)
                                    pattern (i + 1) endIdx (d :: b :: tail))
                            = some (st', revExprs') := h
                        cases hdup : duplicate_expression fuel st (some b) with
                        | none =>
                          rw [hdup] at h
                          cases h
                        | some p =>
                          obtain ⟨st₁, dupFirst⟩ := p
                          rw [hdup] at h
                          obtain ⟨h1, hnf⟩ := stepTo_duplicate_expression fuel st
                            (some b) st₁ dupFirst hst hdup
                          cases dupFirst with
                          | none =>
                            replace h : (none : Option (Tokex × List Nat))
                                = some (st', revExprs') := h
                            cases h
                          | some d =>
                            have hd : d ∈ Ids st₁ := hnf d rfl
                            replace h : (match knit_other_onto_end fuel st₁
                                  (some d) (some d) with
                                | none => none
                                | some st₂ =>
                                  compileLoop fuel (setEdge st₂ d epsC none)
                                    pattern (i + 1) endIdx (d :: b :: tail))
                                = some (st', revExprs') := h
                            cases hk : knit_other_onto_end fuel st₁ (some d)
                                (some d) with
                            | none =>
                              rw [hk] at h
                              cases h
                            | some st₂ =>
                              rw [hk] at h
                              replace h : compileLoop fuel (setEdge st₂ d epsC none)
                                  pattern (i + 1) endIdx (d :: b :: tail)
                                  = some (st', revExprs') := h
                              have h2 := stepTo_knit_other_onto_end fuel st₁
                                (some d) (some d) st₂ h1.1
                                (by
                                  intro j hj
                                  cases hj
                                  exact hd) hk
                              have hse := stepTo_setEdge st₂ d epsC none h2.1
                                (fun j hj => by cases hj)
                              obtain ⟨h3, hmem3⟩ := ih.1 _ pattern (i + 1) endIdx _
                                st' revExprs' hse.1
                                (by
                                  intro x hx
                                  rcases List.mem_cons.mp hx with rfl | hx
                                  · exact hse.2.1 _ (h2.2.1 _ hd)
                                  · exact hse.2.1 x (h2.2.1 x (h1.2.1 x (hre x hx))))
                                h
                              exact ⟨stepTo_trans _ _ _
                                (stepTo_trans _ _ _ (stepTo_trans _ _ _ h1 h2) hse)
                                h3, hmem3⟩
                    | false =>
                      rw [hplus, if_neg Bool.false_ne_true] at h
                      replace h : compileLoop fuel
                          (setEdge (create_node st).1 (create_node st).2 c none)
                          pattern (i + 1) endIdx ((create_node st).2 :: revExprs)
                          = some (st', revExprs') := h
                      obtain ⟨hc, hcIds⟩ := stepTo_create_node st hst
                      have hnmem : (create_node st).2 ∈ Ids (create_node st).1 := by
                        rw [hcIds]
                        exact List.mem_append_right _ (List.mem_singleton_self _)
                      have hse := stepTo_setEdge (create_node st).1
                        (create_node st).2 c none hc.1 (fun j hj => by cases hj)
                      obtain ⟨h2, hmem2⟩ := ih.1 _ pattern (i + 1) endIdx _ st'
                        revExprs' hse.1
                        (by
                          intro x hx
                          rcases List.mem_cons.mp hx with rfl | hx
                          · exact hse.2.1 _ hnmem
                          · exact hse.2.1 x (hc.2.1 x (hre x hx)))
                        h
                      exact ⟨stepTo_trans _ _ _ (stepTo_trans _ _ _ hc hse) h2, hmem2⟩
    · -- compileSegs
      intro st pattern delims st' subs hst h
      cases delims with
      | nil =>
        replace h : some (st, ([] : List Nat)) = some (st', subs) := h
        cases h
        exact ⟨stepTo_refl st hst, fun x hx => absurd hx (List.not_mem_nil x)⟩
      | cons d0 dtail =>
        cases dtail with
        | nil =>
          replace h : some (st, ([] : List Nat)) = some (st', subs) := h
          cases h
          exact ⟨stepTo_refl st hst, fun x hx => absurd hx (List.not_mem_nil x)⟩
        | cons d1 rest =>
          replace h : (match compileRange fuel st pattern (d0 + 1) d1 with
              | none => none
              | some (st₁, e) =>
                match compileSegs fuel st₁ pattern (d1 :: rest) with
                | none => none
                | some (st₂, es) => some (st₂, e :: es)) = some (st', subs) := h
          cases hr : compileRange fuel st pattern (d0 + 1) d1 with
          | none =>
            rw [hr] at h
            cases h
          | some p =>
            obtain ⟨st₁, e⟩ := p
            rw [hr] at h
            replace h : (match compileSegs fuel st₁ pattern (d1 :: rest) with
                | none => none
                | some (st₂, es) => some (st₂, e :: es)) = some (st', subs) := h
            obtain ⟨h1, he⟩ := ih.2.2 st pattern (d0 + 1) d1 st₁ e hst hr
            cases hs : compileSegs fuel st₁ pattern (d1 :: rest) with
            | none =>
              rw [hs] at h
              cases h
            | some q =>
              obtain ⟨st₂, es⟩ := q
              rw [hs] at h
              replace h : some (st₂, e :: es) = some (st', subs) := h
              cases h
              obtain ⟨h2, hes⟩ := ih.2.1 st₁ pattern (d1 :: rest) st' es h1.1 hs
              refine ⟨stepTo_trans _ _ _ h1 h2, ?_⟩
              intro x hx
              rcases List.mem_cons.mp hx with rfl | hx
              · exact h2.2.1 x he
              · exact hes x hx
    · -- compileRange
      intro st pattern b e st' f hst h
      replace h : (match compileLoop fuel st pattern b e [] with
          | none => none
          | some (st₁, revExprs) =>
            match revExprs.reverse with
            | [] => none
            | e0 :: rest => knitFold fuel st₁ e0 rest) = some (st', f) := h
      cases hl : compileLoop fuel st pattern b e [] with
      | none =>
        rw [hl] at h
        cases h
      | some p =>
        obtain ⟨st₁, revExprs⟩ := p
        rw [hl] at h
        replace h : (match revExprs.reverse with
            | [] => none
            | e0 :: rest => knitFold fuel st₁ e0 rest) = some (st', f) := h
        obtain ⟨h1, hre⟩ := ih.1 st pattern b e [] st₁ revExprs hst
          (fun x hx => absurd hx (List.not_mem_nil x)) hl
        cases hrev : revExprs.reverse with
        | nil =>
          rw [hrev] at h
          cases h
        | cons e0 rest =>
          rw [hrev] at h
          replace h : knitFold fuel st₁ e0 rest = some (st', f) := h
          have he0 : e0 ∈ Ids st₁ := by
            refine hre e0 ?_
            rw [← List.mem_reverse, hrev]
            exact List.mem_cons_self _ _
          obtain ⟨h2, hf⟩ := stepTo_knitFold fuel e0 rest st₁ st' f h1.1
            (by
              intro x hx
              refine hre x ?_
              rw [← List.mem_reverse, hrev]
              exact List.mem_cons_of_mem _ hx) h
          subst hf
          exact ⟨stepTo_trans _ _ _ h1 h2, h2.2.1 f he0⟩

end Tokex2Proof

namespace Tokex2Proof

/-- The empty engine satisfies the pipeline invariant. -/
theorem Inv_empty : Inv {} := by
  refine ⟨rfl, ?_, ?_, ?_⟩
  · intro p hp e he t het
    exact absurd hp (List.not_mem_nil p)
  · intro i
    exact Or.inl rfl
  · intro j hj
    exact absurd hj (List.not_mem_nil j)

/-- Invariant summary of the compile tail `compileStage2`: on success
the result is the purge of a state that satisfies the invariant, keeps
the appended success node end-typed, and has the fragment entry
installed as the machine entry. -/
theorem compileStage2_inv (fuel : Nat) (st1 : Tokex) (first : Nat) (st : Tokex)
    (sid : Nat) (hst1 : Inv st1) (hfirst : first ∈ Ids st1)
    (h : compileStage2 fuel st1 first = some (st, sid)) :
    ∃ st3 : Tokex, st = purge st3 ∧ Inv st3 ∧ sid ∈ Ids st3
      ∧ (getNode st3 sid).ty = NodeType.end_
      ∧ st3.beginning = some first ∧ first ∈ Ids st3 := by
  replace h : (match knit_other_onto_end fuel
        (setType (create_node { st1 with beginning := some first }).1
          (create_node { st1 with beginning := some first }).2 NodeType.end_)
        (some first)
        (some (create_node { st1 with beginning := some first }).2) with
      | none => none
      | some st2 => compileStage3 fuel st2 first
          (create_node { st1 with beginning := some first }).2)
      = some (st, sid) := h
  have hstb : Inv { st1 with beginning := some first } := hst1
  have hfirstb : first ∈ Ids { st1 with beginning := some first } := hfirst
  have hbegb : ({ st1 with beginning := some first } : Tokex).beginning
      = some first := rfl
  generalize hgen : ({ st1 with beginning := some first } : Tokex) = stb
    at h hstb hfirstb hbegb
  obtain ⟨hcn, hcnIds⟩ := stepTo_create_node stb hstb
  have hsidmem : (create_node stb).2 ∈ Ids (create_node stb).1 := by
    rw [hcnIds]
    exact List.mem_append_right _ (List.mem_singleton_self _)
  have hsg : storeGet (create_node stb).2 (create_node stb).1.store
      = some {} := by
    show storeGet stb.nextId (stb.store ++ [(stb.nextId, {})]) = some {}
    have h1 : storeGet stb.nextId stb.store = none :=
      storeGet_not_mem _ _
        (fun hm => absurd (hstb.2.2.2 _ hm) (Nat.lt_irrefl _))
    simp [storeGet_append, h1]
  have hty0 : (getNode (setType (create_node stb).1 (create_node stb).2
      NodeType.end_) (create_node stb).2).ty = NodeType.end_ := by
    rw [ty_setType, if_pos ⟨rfl, by rw [hsg]; rfl⟩]
  have hstyStep := stepTo_setType_end (create_node stb).1 (create_node stb).2 hcn.1
  cases hk : knit_other_onto_end fuel
      (setType (create_node stb).1 (create_node stb).2 NodeType.end_)
      (some first) (some (create_node stb).2) with
  | none =>
    rw [hk] at h
    cases h
  | some st2 =>
    rw [hk] at h
    replace h : compileStage3 fuel st2 first (create_node stb).2
        = some (st, sid) := h
    have hkStep := stepTo_knit_other_onto_end fuel _ (some first)
      (some (create_node stb).2) st2 hstyStep.1
      (by
        intro j hj
        cases hj
        exact hstyStep.2.1 _ hsidmem) hk
    replace h : (match remove_epsilons fuel st2 (some first) with
        | none => none
        | some st3 => compileStage4 st3 (create_node stb).2)
        = some (st, sid) := h
    cases hrem : remove_epsilons fuel st2 (some first) with
    | none =>
      rw [hrem] at h
      cases h
    | some st3 =>
      rw [hrem] at h
      replace h : some (purge st3, (create_node stb).2) = some (st, sid) := h
      cases h
      have hremStep := stepTo_remove_epsilons fuel st2 (some first) st3
        hkStep.1 hrem
      have hchain := stepTo_trans _ _ _
        (stepTo_trans _ _ _ (stepTo_trans _ _ _ hcn hstyStep) hkStep) hremStep
      refine ⟨st3, rfl, hchain.1, ?_, ?_, ?_, ?_⟩
      · exact hremStep.2.1 _ (hkStep.2.1 _ (hstyStep.2.1 _ hsidmem))
      · exact hremStep.2.2.2 _ (hkStep.2.2.2 _ hty0)
      · rw [hremStep.2.2.1, hkStep.2.2.1, hstyStep.2.2.1, hcn.2.2.1, hbegb]
      · exact hchain.2.1 first hfirstb

/-- Invariant summary of the whole compile pipeline: a successful
`compileAuxF` yields the purge of an invariant state whose appended
success node is stored and end-typed and whose entry is a stored id. -/
theorem compileAuxF_inv (fuel : Nat) (p : List Char) (st : Tokex) (sid : Nat)
    (h : compileAuxF fuel p = some (st, sid)) :
    ∃ st3 : Tokex, st = purge st3 ∧ Inv st3 ∧ sid ∈ Ids st3
      ∧ (getNode st3 sid).ty = NodeType.end_
      ∧ ∃ f0 : Nat, st3.beginning = some f0 ∧ f0 ∈ Ids st3 := by
  unfold compileAuxF at h
  cases hr : compileRange fuel {} p 0 p.length with
  | none =>
    rw [hr] at h
    cases h
  | some q =>
    obtain ⟨st1, first⟩ := q
    rw [hr] at h
    replace h : compileStage2 fuel st1 first = some (st, sid) := h
    obtain ⟨hR, hfirst⟩ := (stepTo_compile_mutual fuel).2.2 {} p 0 p.length
      st1 first Inv_empty hr
    obtain ⟨st3, hpe, hinv, hmem, hty, hbeg, hf⟩ :=
      compileStage2_inv fuel st1 first st sid hR.1 hfirst h
    exact ⟨st3, hpe, hinv, hmem, hty, first, hbeg, hf⟩

end Tokex2Proof

namespace Tokex2Proof

/-- The final state of `compile('a')` and the id of its success node. -/
def c5T : Tokex :=
  { store := [(0, { ty := NodeType.normal, next := [('a', some 1)], script := [] }),
       (1, { ty := NodeType.end_, next := [], script := [] })],
    nextId := 2, beginning := some 0, allNodes := [0, 1] }

/-- C5 (amended): after a successful `compile()`, the success node that
`compile` appended is still stored and still has type `end`. (The
original claim — exactly one reachable node has type `end` — is refuted
by `claim_C5_counterexample_two_end_nodes`: already the pattern `a?`
leaves two reachable end-typed nodes, because epsilon closure copies
the end type onto every node whose closure contains the success
node.) -/
theorem claim_C5_success_node_end (p : List Char) (st : Tokex) (sid : Nat)
    (h : compileAux p = some (st, sid)) :
    (getNode st sid).ty = NodeType.end_ ∧ sid ∈ Ids st := by
  obtain ⟨st3, rfl, hinv, hmem, hty, _⟩ := compileAuxF_inv compileFuel p st sid h
  exact ⟨hty, hmem⟩

/-- Witness: `compile('a')` succeeds and the theorem applies to it. -/
theorem claim_C5_success_node_end_witness :
    compileAux ['a'] = some (c5T, 1)
      ∧ (getNode c5T 1).ty = NodeType.end_ ∧ 1 ∈ Ids c5T :=
  ⟨by decide, claim_C5_success_node_end ['a'] c5T 1 (by decide)⟩

end Tokex2Proof

namespace Tokex2Proof

/-- The queue-and-visited update fold of the breadth-first walk keeps
every visited entry a legal target. -/
theorem ganFold_ok (st : Tokex) (edges : List (Char × Option Nat))
    (he : ∀ e ∈ edges, TgtOk st e.2) :
    ∀ acc : List (Option Nat) × List (Option Nat), (∀ x ∈ acc.1, TgtOk st x) →
    ∀ x ∈ (edges.foldl
        (fun (acc : List (Option Nat) × List (Option Nat)) e =>
          if acc.1.contains e.2 then acc else (acc.1 ++ [e.2], acc.2 ++ [e.2]))
        acc).1,
      TgtOk st x := by
  induction edges with
  | nil =>
    intro acc h1 x hx
    exact h1 x hx
  | cons e rest ih =>
    intro acc h1 x hx
    rw [List.foldl_cons] at hx
    refine ih (fun e' he' => he e' (List.mem_cons_of_mem _ he')) _ ?_ x hx
    intro y hy
    replace hy : y ∈ (if acc.1.contains e.2 then acc
        else (acc.1 ++ [e.2], acc.2 ++ [e.2])).1 := hy
    cases hct : acc.1.contains e.2 with
    | true =>
      rw [hct] at hy
      replace hy : y ∈ acc.1 := hy
      exact h1 y hy
    | false =>
      rw [hct] at hy
      replace hy : y ∈ acc.1 ++ [e.2] := hy
      rcases List.mem_append.mp hy with hz | hz
      · exact h1 y hz
      · rcases List.mem_singleton.mp hz with rfl
        exact he e (List.mem_cons_self _ _)

/-- Every entry the breadth-first walk ever records is a legal target:
null or a stored id. -/
theorem ganLoop_tgtOk (fuel : Nat) :
    ∀ (st : Tokex) (out queue : List (Option Nat)), EdgesClosed st →
      (∀ x ∈ out, TgtOk st x) →
      ∀ x ∈ ganLoop fuel st out queue, TgtOk st x := by
  induction fuel with
  | zero =>
    intro st out queue _ hout x hx
    cases queue with
    | nil => exact hout x hx
    | cons c q => exact hout x hx
  | succ fuel ih =>
    intro st out queue hc hout x hx
    cases queue with
    | nil => exact hout x hx
    | cons c q =>
      cases c with
      | none => exact ih st out q hc hout x hx
      | some cid =>
        have hf := ganFold_ok st ((getNode st cid).next)
          (fun e he => tgtOk_of_edge st hc cid e he) (out, q) hout
        exact ih st _ _ hc hf x hx

/-- `getNode` reads only the store. -/
theorem getNode_store_congr (st st' : Tokex) (h : st.store = st'.store) (i : Nat) :
    getNode st i = getNode st' i := by
  unfold getNode
  rw [h]

/-- The breadth-first walk reads only the store. -/
theorem ganLoop_store_congr (fuel : Nat) :
    ∀ (st st' : Tokex), st.store = st'.store →
      ∀ out queue, ganLoop fuel st out queue = ganLoop fuel st' out queue := by
  induction fuel with
  | zero =>
    intro st st' h out queue
    cases queue with
    | nil => rfl
    | cons c q => rfl
  | succ fuel ih =>
    intro st st' h out queue
    cases queue with
    | nil => rfl
    | cons c q =>
      cases c with
      | none => exact ih st st' h out q
      | some cid =>
        show ganLoop fuel st
            (((getNode st cid).next.foldl
              (fun (acc : List (Option Nat) × List (Option Nat)) e =>
                if acc.1.contains e.2 then acc
                else (acc.1 ++ [e.2], acc.2 ++ [e.2])) (out, q)).1)
            (((getNode st cid).next.foldl
              (fun (acc : List (Option Nat) × List (Option Nat)) e =>
                if acc.1.contains e.2 then acc
                else (acc.1 ++ [e.2], acc.2 ++ [e.2])) (out, q)).2)
          = ganLoop fuel st'
            (((getNode st' cid).next.foldl
              (fun (acc : List (Option Nat) × List (Option Nat)) e =>
                if acc.1.contains e.2 then acc
                else (acc.1 ++ [e.2], acc.2 ++ [e.2])) (out, q)).1)
            (((getNode st' cid).next.foldl
              (fun (acc : List (Option Nat) × List (Option Nat)) e =>
                if acc.1.contains e.2 then acc
                else (acc.1 ++ [e.2], acc.2 ++ [e.2])) (out, q)).2)
        rw [getNode_store_congr st st' h cid]
        exact ih st st' h _ _

/-- Purging does not change what is reachable: the walk reads only the
store and the entry, which `purge` keeps. -/
theorem get_all_nodes_purge (st : Tokex) :
    get_all_nodes (purge st) = get_all_nodes st := by
  unfold get_all_nodes
  have hf : ganFuel (purge st) = ganFuel st := rfl
  have hb : (purge st).beginning = st.beginning := rfl
  rw [hf, hb]
  exact ganLoop_store_congr (ganFuel st) (purge st) st rfl _ _

/-- The final state of `compile('ab')` and the id of its success
node. -/
def c10T : Tokex :=
  { store := [(0, { ty := NodeType.normal, next := [('a', some 1)], script := [] }),
       (1, { ty := NodeType.normal, next := [('b', some 2)], script := [] }),
       (2, { ty := NodeType.end_, next := [], script := [] })],
    nextId := 3, beginning := some 0, allNodes := [0, 1, 2] }

/-- C10: after a successful `compile()`, every non-null node reachable
from the entry (as collected by the breadth-first walk of
`get_all_nodes`) is a member of the owning node set `allNodes`: all
nodes come from `create_node`, which registers them on allocation, the
later phases only rewire edges among owned nodes, and the final purge
keeps exactly the reachable ones. -/
theorem claim_C10_reachable_owned (p : List Char) (st : Tokex) (sid : Nat)
    (h : compileAux p = some (st, sid)) :
    ∀ i : Nat, some i ∈ get_all_nodes st → i ∈ st.allNodes := by
  obtain ⟨st3, rfl, hinv, _, _, f0, hbeg, hf0⟩ :=
    compileAuxF_inv compileFuel p st sid h
  intro i hi
  rw [get_all_nodes_purge st3] at hi
  have hreach : some i ∈ get_all_nodes st3 := hi
  have hok : ∀ x ∈ get_all_nodes st3, TgtOk st3 x := by
    refine ganLoop_tgtOk (ganFuel st3) st3 [st3.beginning] [st3.beginning]
      hinv.2.1 ?_
    intro x hx
    rcases List.mem_singleton.mp hx with rfl
    intro j hj
    rw [hbeg] at hj
    cases hj
    exact hf0
  have hIds : i ∈ Ids st3 := hok (some i) hreach i rfl
  have hcont : (get_all_nodes st3).contains (some i) = true :=
    List.elem_iff.mpr hreach
  show i ∈ st3.allNodes.filter fun x => (get_all_nodes st3).contains (some x)
  refine List.mem_filter.mpr ⟨?_, hcont⟩
  rw [hinv.1]
  exact hIds

/-- Witness: `compile('ab')` succeeds, node 0 is reachable, and the
theorem places it in the owning set. -/
theorem claim_C10_reachable_owned_witness :
    compileAux ['a', 'b'] = some (c10T, 2) ∧ some 0 ∈ get_all_nodes c10T
      ∧ 0 ∈ c10T.allNodes :=
  ⟨by decide, by decide,
    claim_C10_reachable_owned ['a', 'b'] c10T 2 (by decide) 0 (by decide)⟩

end Tokex2Proof

namespace Tokex2Proof

/-- The machine compiled from `(a|b)`. -/
def c8A : Tokex :=
  { store :=
      [(0, { ty := NodeType.normal, next := [('a', some 2), ('b', some 2)], script := [] }),
       (1, { ty := NodeType.normal, next := [('b', none)], script := [] }),
       (2, { ty := NodeType.end_, next := [], script := [] })],
    nextId := 3, beginning := some 0, allNodes := [0, 2] }

/-- The machine compiled from `(b|a)`. -/
def c8B : Tokex :=
  { store :=
      [(0, { ty := NodeType.normal, next := [('a', some 2), ('b', some 2)], script := [] }),
       (1, { ty := NodeType.normal, next := [('a', none)], script := [] }),
       (2, { ty := NodeType.end_, next := [], script := [] })],
    nextId := 3, beginning := some 0, allNodes := [0, 2] }

/-- The body of one non-null `run` step as a function of the current
node value. -/
def runStepNode (nd : NodeData) (input : Char) (allow_epsilons : Bool) :
    Option Nat :=
  match mapFind input nd.next with
  | some t => t
  | none =>
    match mapFind wildC nd.next with
    | some t => t
    | none =>
      if allow_epsilons then
        match mapFind epsC nd.next with
        | some t => t
        | none => none
      else none

/-- One `run` step reads only the current node. -/
theorem runStep_node_congr (st st' : Tokex) (n : Nat) (c : Char) (b : Bool)
    (h : getNode st n = getNode st' n) :
    runStep st (some n) c b = runStep st' (some n) c b := by
  have e1 : runStep st (some n) c b = runStepNode (getNode st n) c b := rfl
  have e2 : runStep st' (some n) c b = runStepNode (getNode st' n) c b := rfl
  rw [e1, e2, h]

/-- Without epsilons, a `run` step either dies or follows one of the
current node's edges. -/
theorem runStep_cases (st : Tokex) (n : Nat) (c : Char) :
    runStep st (some n) c false = none
      ∨ ∃ e ∈ (getNode st n).next, runStep st (some n) c false = e.2 := by
  have he : runStep st (some n) c false =
      (match mapFind c (getNode st n).next with
       | some t => t
       | none =>
         match mapFind wildC (getNode st n).next with
         | some t => t
         | none => none) := rfl
  rw [he]
  cases h1 : mapFind c (getNode st n).next with
  | some t =>
    right
    refine ⟨(c, t), mapFind_mem _ _ _ h1, ?_⟩
    simp only [h1]
  | none =>
    cases h2 : mapFind wildC (getNode st n).next with
    | some t =>
      right
      refine ⟨(wildC, t), mapFind_mem _ _ _ h2, ?_⟩
      simp only [h1, h2]
    | none =>
      left
      simp only [h1, h2]

/-- The two machines agree on every node other than the unreachable
leftover arm node 1. -/
theorem c8_getNode (n : Nat) (hn1 : n ≠ 1) : getNode c8A n = getNode c8B n := by
  by_cases h0 : n = 0
  · subst h0
    decide
  by_cases h2 : n = 2
  · subst h2
    decide
  · simp [c8A, c8B, getNode, storeGet, h0, hn1, h2]

/-- Off the leftover node, one step in the two machines agrees and
never enters the leftover node. -/
theorem c8_step (cur : Option Nat) (c : Char) (hcur : cur ≠ some 1) :
    runStep c8A cur c false = runStep c8B cur c false
      ∧ runStep c8A cur c false ≠ some 1 := by
  cases cur with
  | none => exact ⟨rfl, fun h => Option.noConfusion h⟩
  | some n =>
    have hn1 : n ≠ 1 := fun h => hcur (by rw [h])
    refine ⟨runStep_node_congr c8A c8B n c false (c8_getNode n hn1), ?_⟩
    by_cases h0 : n = 0
    · subst h0
      rcases runStep_cases c8A 0 c with h | ⟨e, he, hres⟩
      · rw [h]
        decide
      · rw [hres]
        have hnx : (getNode c8A 0).next = [('a', some 2), ('b', some 2)] := rfl
        rw [hnx] at he
        have he2 : e.2 = some 2 := by
          rcases List.mem_cons.mp he with rfl | he'
          · rfl
          · rcases List.mem_cons.mp he' with rfl | he''
            · rfl
            · exact absurd he'' (List.not_mem_nil e)
        rw [he2]
        decide
    by_cases h2 : n = 2
    · subst h2
      rcases runStep_cases c8A 2 c with h | ⟨e, he, _⟩
      · rw [h]
        decide
      · have hnx : (getNode c8A 2).next = [] := rfl
        rw [hnx] at he
        exact absurd he (List.not_mem_nil e)
    · have hnone : storeGet n c8A.store = none := by
        simp [c8A, storeGet, h0, hn1, h2]
      have hdef : getNode c8A n = {} := by
        unfold getNode
        rw [hnone]
      rcases runStep_cases c8A n c with h | ⟨e, he, _⟩
      · rw [h]
        decide
      · have hnx : (getNode c8A n).next = [] := by
          rw [hdef]
        rw [hnx] at he
        exact absurd he (List.not_mem_nil e)

/-- Off the leftover node, whole runs agree and never enter it. -/
theorem c8_runList (s : List Char) :
    ∀ cur : Option Nat, cur ≠ some 1 →
      runList c8A cur s false = runList c8B cur s false
        ∧ runList c8A cur s false ≠ some 1 := by
  induction s with
  | nil =>
    intro cur hcur
    exact ⟨rfl, hcur⟩
  | cons c cs ih =>
    intro cur hcur
    obtain ⟨hstep, hne⟩ := c8_step cur c hcur
    have h1 : runList c8A cur (c :: cs) false
        = runList c8A (runStep c8A cur c false) cs false := rfl
    have h2 : runList c8B cur (c :: cs) false
        = runList c8B (runStep c8B cur c false) cs false := rfl
    rw [h1, h2, ← hstep]
    exact ih (runStep c8A cur c false) hne

/-- The two machines read the same state observation off the leftover
node. -/
theorem c8_get_state (x : Option Nat) (hx : x ≠ some 1) :
    get_state c8A x = get_state c8B x := by
  cases x with
  | none => rfl
  | some n =>
    have hn1 : n ≠ 1 := fun h => hx (by rw [h])
    show (getNode c8A n).ty = (getNode c8B n).ty
    rw [c8_getNode n hn1]

/-- C8 (amended): alternation of two distinct single literal tokens is
commutative at the language level: the engines compiled from `(a|b)`
and from `(b|a)` accept exactly the same input sequences. (The original
claim — commutativity for all sub-patterns A and B — is refuted by
`claim_C8_counterexample_not_commutative`: `(ab|a)` and `(a|ab)` give
engines that disagree on the input `a`, because the suit merge of the
second arm into the first is order-sensitive.) -/
theorem claim_C8_single_token_commutes (s : List Char) :
    (compileT ['(', 'a', '|', 'b', ')']).map (fun st => matchT st s)
      = (compileT ['(', 'b', '|', 'a', ')']).map (fun st => matchT st s) := by
  have hA : compileT ['(', 'a', '|', 'b', ')'] = some c8A := by decide
  have hB : compileT ['(', 'b', '|', 'a', ')'] = some c8B := by decide
  rw [hA, hB]
  show some (matchT c8A s) = some (matchT c8B s)
  obtain ⟨heq, hne⟩ := c8_runList s (some 0) (by decide)
  have hm1 : matchT c8A s
      = state_to_bool (get_state c8A (runList c8A (some 0) s false)) := rfl
  have hm2 : matchT c8B s
      = state_to_bool (get_state c8B (runList c8B (some 0) s false)) := rfl
  rw [hm1, hm2, ← heq, c8_get_state _ hne]

end Tokex2Proof

namespace Tokex2Proof

/-- A stored id has a stored node. -/
theorem storeGet_isSome_of_mem (l : List (Nat × NodeData)) (i : Nat)
    (h : i ∈ l.map Prod.fst) : (storeGet i l).isSome := by
  induction l with
  | nil => cases h
  | cons p rest ih =>
    obtain ⟨k, v⟩ := p
    rw [storeGet_cons]
    by_cases hik : i = k
    · rw [if_pos hik]
      rfl
    · rw [if_neg hik]
      rcases List.mem_cons.mp h with hk | hm
    
      · exact absurd hk hik
      · exact ih hm

/-- Reading back the key just written by `mapInsert`. -/
theorem mapFind_mapInsert_self (m : EdgeMap) (k : Char) (v : Option Nat) :
    mapFind k (mapInsert k v m) = some v := by
  induction m with
  | nil => simp [mapInsert, mapFind]
  | cons p rest ih =>
    obtain ⟨k', v'⟩ := p
    by_cases h1 : k < k'
    · simp [mapInsert, h1, mapFind]
    · by_cases h2 : k = k'
      · simp [mapInsert, h1, h2, mapFind]
      · simp [mapInsert, h1, h2, mapFind, ih]

/-- Reading another key after `mapInsert`. -/
theorem mapFind_mapInsert_ne (m : EdgeMap) (k k' : Char) (v : Option Nat)
    (hne : k' ≠ k) : mapFind k' (mapInsert k v m) = mapFind k' m := by
  induction m with
  | nil => simp [mapInsert, mapFind, hne]
  | cons p rest ih =>
    obtain ⟨k0, v0⟩ := p
    by_cases h1 : k < k0
    · simp [mapInsert, h1, mapFind, hne]
    · by_cases h2 : k = k0
      · subst h2
        simp [mapInsert, h1, mapFind, hne]
      · simp [mapInsert, h1, h2, mapFind, ih]

/-- A key outside the key column is not found. -/
theorem mapFind_none_of_not_mem (m : EdgeMap) (k : Char)
    (h : k ∉ m.map Prod.fst) : mapFind k m = none := by
  induction m with
  | nil => rfl
  | cons p rest ih =>
    obtain ⟨k0, v0⟩ := p
    rw [List.map_cons] at h
    show (if k = k0 then some v0 else mapFind k rest) = none
    by_cases hk : k = k0
    · exact absurd (List.mem_cons.mpr (Or.inl hk)) h
    · rw [if_neg hk]
      exact ih (fun hm => h (List.mem_cons.mpr (Or.inr hm)))

/-- Lookup in an appended association list. -/
theorem alistGet_append (x : Option Nat) (l1 l2 : List (Option Nat × Option Nat)) :
    alistGet x (l1 ++ l2) =
      match alistGet x l1 with
      | some v => some v
      | none => alistGet x l2 := by
  induction l1 with
  | nil => rfl
  | cons p rest ih =>
    obtain ⟨k, v⟩ := p
    show (if x = k then some v else alistGet x (rest ++ l2)) =
      match (if x = k then some v else alistGet x rest) with
      | some v => some v
      | none => alistGet x l2
    by_cases hx : x = k
    · rw [if_pos hx, if_pos hx]
    · rw [if_neg hx, if_neg hx, ih]

/-- A found entry stays found after appending. -/
theorem alistGet_append_isSome (x : Option Nat)
    (l1 l2 : List (Option Nat × Option Nat)) (h : (alistGet x l1).isSome) :
    (alistGet x (l1 ++ l2)).isSome := by
  rw [alistGet_append]
  cases hg : alistGet x l1 with
  | none =>
    rw [hg] at h
    cases h
  | some v => rfl

/-- Looking up past a missing prefix. -/
theorem alistGet_append_of_none (x : Option Nat)
    (l1 l2 : List (Option Nat × Option Nat)) (h : alistGet x l1 = none) :
    alistGet x (l1 ++ l2) = alistGet x l2 := by
  rw [alistGet_append, h]

/-- The null current pointer is a sink for whole runs. -/
theorem runList_none (st : Tokex) (s : List Char) (b : Bool) :
    runList st none s b = none := by
  induction s with
  | nil => rfl
  | cons c cs ih => exact ih

/-- The ids after the clone-allocation step. -/
theorem Ids_dupVisit (st : Tokex) (cid : Nat) :
    Ids (dupVisit st cid).1 = Ids st ++ [st.nextId] := by
  show Ids (setNode (create_node st).1 st.nextId
    { getNode (create_node st).1 st.nextId with
        ty := (getNode st cid).ty, script := (getNode st cid).script })
    = Ids st ++ [st.nextId]
  rw [Ids_setNode]
  exact create_node_keys st

/-- The allocation counter after the clone-allocation step. -/
theorem nextId_dupVisit (st : Tokex) (cid : Nat) :
    (dupVisit st cid).1.nextId = st.nextId + 1 := rfl

/-- The freshly allocated slot of `create_node` holds the default
node. -/
theorem storeGet_create_self (st : Tokex) (hfr : FreshOk st) :
    storeGet st.nextId (create_node st).1.store = some {} := by
  show storeGet st.nextId (st.store ++ [(st.nextId, {})]) = some {}
  have h1 : storeGet st.nextId st.store = none :=
    storeGet_not_mem _ _ (fun hm => absurd (hfr _ hm) (Nat.lt_irrefl _))
  simp [storeGet_append, h1]

/-- Content of the freshly made clone. -/
theorem getNode_dupVisit_self (st : Tokex) (cid : Nat) (hfr : FreshOk st) :
    getNode (dupVisit st cid).1 st.nextId
      = { ty := (getNode st cid).ty, next := [],
          script := (getNode st cid).script } := by
  show getNode (setNode (create_node st).1 st.nextId
      { getNode (create_node st).1 st.nextId with
          ty := (getNode st cid).ty, script := (getNode st cid).script })
      st.nextId = _
  rw [getNode_setNode,
    if_pos ⟨rfl, by rw [storeGet_create_self st hfr]; rfl⟩,
    getNode_create_unchanged, getNode_nextId st hfr]

/-- Every other node is untouched by the clone-allocation step. -/
theorem getNode_dupVisit_other (st : Tokex) (cid i : Nat) (hne : i ≠ st.nextId) :
    getNode (dupVisit st cid).1 i = getNode st i := by
  show getNode (setNode (create_node st).1 st.nextId
      { getNode (create_node st).1 st.nextId with
          ty := (getNode st cid).ty, script := (getNode st cid).script }) i = _
  rw [getNode_setNode, if_neg (fun hand => hne hand.1), getNode_create_unchanged]

end Tokex2Proof

namespace Tokex2Proof

/-- The edge map that phase two of `duplicate_expression` builds for one
clone: the original's edges with every target sent through the
old-to-new map. -/
def dupMapEdges (o2n : List (Option Nat × Option Nat)) :
    List (Char × Option Nat) → EdgeMap → Option EdgeMap
  | [], m => some m
  | (k, t) :: rest, m =>
    match alistGet t o2n with
    | none => none
    | some newT => dupMapEdges o2n rest (mapInsert k newT m)

/-- Lookup in the clone's edge map built from a duplicate-key-free
original: found keys read the mapped target, missing keys fall back to
the accumulator. -/
theorem dupMapEdges_find (o2n : List (Option Nat × Option Nat)) :
    ∀ (E : List (Char × Option Nat)), (E.map Prod.fst).Nodup →
      ∀ (m m' : EdgeMap), dupMapEdges o2n E m = some m' →
      ∀ k : Char, mapFind k m' =
        match mapFind k E with
        | some t => alistGet t o2n
        | none => mapFind k m := by
  intro E
  induction E with
  | nil =>
    intro _ m m' h k
    replace h : some m = some m' := h
    cases h
    rfl
  | cons e rest ih =>
    intro hnd m m' h k
    obtain ⟨k0, t0⟩ := e
    replace h : (match alistGet t0 o2n with
        | none => none
        | some newT => dupMapEdges o2n rest (mapInsert k0 newT m)) = some m' := h
    cases hg : alistGet t0 o2n with
    | none =>
      rw [hg] at h
      cases h
    | some nt =>
      rw [hg] at h
      rw [List.map_cons, List.nodup_cons] at hnd
      have hrec := ih hnd.2 (mapInsert k0 nt m) m' h k
      by_cases hk : k = k0
      · subst hk
        have h1 : mapFind k rest = none :=
          mapFind_none_of_not_mem rest k hnd.1
        have hfr : mapFind k ((k, t0) :: rest) = some t0 := by
          show (if k = k then some t0 else mapFind k rest) = some t0
          rw [if_pos rfl]
        rw [hfr]
        show mapFind k m' = alistGet t0 o2n
        rw [hrec, h1]
        show mapFind k (mapInsert k nt m) = alistGet t0 o2n
        rw [mapFind_mapInsert_self, hg]
      · have h2 : mapFind k ((k0, t0) :: rest) = mapFind k rest := by
          show (if k = k0 then some t0 else mapFind k rest) = mapFind k rest
          rw [if_neg hk]
        rw [hrec, h2, mapFind_mapInsert_ne m k0 k nt hk]

/-- What `dupEdges` does to the state: it rewrites exactly the clone's
edge map, to the mapped copy of the edge list it is given. -/
theorem dupEdges_spec (o2n : List (Option Nat × Option Nat)) (nid : Nat) :
    ∀ (E : List (Char × Option Nat)) (st st₁ : Tokex),
      dupEdges st o2n nid E = some st₁ →
      nid ∈ Ids st →
      Ids st₁ = Ids st
      ∧ (∀ i, i ≠ nid → getNode st₁ i = getNode st i)
      ∧ ∃ m', dupMapEdges o2n E ((getNode st nid).next) = some m'
          ∧ getNode st₁ nid = { getNode st nid with next := m' } := by
  intro E
  induction E with
  | nil =>
    intro st st₁ h _
    replace h : some st = some st₁ := h
    cases h
    exact ⟨rfl, fun i _ => rfl, (getNode st nid).next, rfl, rfl⟩
  | cons e rest ih =>
    intro st st₁ h hmem
    obtain ⟨k, t⟩ := e
    replace h : (match alistGet t o2n with
        | none => none
        | some newT => dupEdges (setEdge st nid k newT) o2n nid rest)
        = some st₁ := h
    cases hg : alistGet t o2n with
    | none =>
      rw [hg] at h
      cases h
    | some nt =>
      rw [hg] at h
      have hidsSet : Ids (setEdge st nid k nt) = Ids st := by
        show Ids (setNode st nid (withEdge k nt (getNode st nid))) = Ids st
        exact Ids_setNode _ _ _
      have hmem' : nid ∈ Ids (setEdge st nid k nt) := by
        rw [hidsSet]
        exact hmem
      obtain ⟨hids, huntouched, m', hbuild, hclone⟩ := ih (setEdge st nid k nt) st₁ h hmem'
      have hgetSelf : getNode (setEdge st nid k nt) nid
          = { getNode st nid with next := mapInsert k nt (getNode st nid).next } := by
        show getNode (setNode st nid
          { getNode st nid with next := mapInsert k nt (getNode st nid).next }) nid = _
        rw [getNode_setNode,
          if_pos ⟨rfl, storeGet_isSome_of_mem st.store nid hmem⟩]
      have hgetOther : ∀ i, i ≠ nid → getNode (setEdge st nid k nt) i = getNode st i := by
        intro i hi
        show getNode (setNode st nid _) i = _
        rw [getNode_setNode, if_neg (fun hand => hi hand.1)]
      refine ⟨hids.trans hidsSet,
        fun i hi => (huntouched i hi).trans (hgetOther i hi), m', ?_, ?_⟩
      · show (match alistGet t o2n with
            | none => none
            | some newT => dupMapEdges o2n rest (mapInsert k newT ((getNode st nid).next)))
            = some m'
        rw [hg]
        rw [hgetSelf] at hbuild
        exact hbuild
      · rw [hclone, hgetSelf]

end Tokex2Proof

namespace Tokex2Proof

/-- Invariant carried through phase one of `duplicate_expression`,
relating the evolving state and clone map to the original state
`st0`: the pipeline invariant holds, the original nodes are untouched,
ids only grow, every map key is a legal original target, every map
entry sends null to null and an original to a fresh clone carrying the
original's type and script with no edges yet, and the clone ids are
strictly increasing and below the allocation counter. -/
def DupState (st0 st : Tokex) (o2n : List (Option Nat × Option Nat)) : Prop :=
  Inv st
  ∧ (∀ i ∈ Ids st0, getNode st i = getNode st0 i)
  ∧ (∀ i, i ∈ Ids st0 → i ∈ Ids st)
  ∧ st0.nextId ≤ st.nextId
  ∧ (∀ p ∈ o2n, TgtOk st0 p.1)
  ∧ (∀ p ∈ o2n, (p.1 = none → p.2 = none)
      ∧ ∀ cid : Nat, p.1 = some cid → ∃ nid : Nat, p.2 = some nid
          ∧ nid ∉ Ids st0 ∧ nid ∈ Ids st
          ∧ getNode st nid
            = { ty := (getNode st0 cid).ty, next := [], script := (getNode st0 cid).script })
  ∧ (o2n.filterMap (fun p => p.2)).Pairwise (· < ·)
  ∧ (∀ v ∈ o2n.filterMap (fun p => p.2), v < st.nextId)

/-- Summary of phase one of `duplicate_expression`: the invariant above
is preserved, found entries stay found, every queued node ends up in
the map, and at the end the map is closed under original edges. -/
theorem dupPhase1_master (st0 : Tokex) (hst0 : Inv st0) (fuel : Nat) :
    ∀ (st : Tokex) (o2n : List (Option Nat × Option Nat))
      (queue : List (Option Nat)) (st1 : Tokex)
      (o2nF : List (Option Nat × Option Nat)),
      dupPhase1 fuel st o2n queue = some (st1, o2nF) →
      DupState st0 st o2n →
      (∀ x ∈ queue, TgtOk st0 x) →
      (∀ p ∈ o2n, ∀ cid : Nat, p.1 = some cid →
        ∀ e ∈ (getNode st0 cid).next, (alistGet e.2 o2n).isSome ∨ e.2 ∈ queue) →
      DupState st0 st1 o2nF
      ∧ (∀ x, (alistGet x o2n).isSome → (alistGet x o2nF).isSome)
      ∧ (∀ x ∈ queue, (alistGet x o2nF).isSome)
      ∧ (∀ p ∈ o2nF, ∀ cid : Nat, p.1 = some cid →
          ∀ e ∈ (getNode st0 cid).next, (alistGet e.2 o2nF).isSome) := by
  induction fuel with
  | zero =>
    intro st o2n queue st1 o2nF h
    cases h
  | succ fuel ih =>
    intro st o2n queue st1 o2nF h hds hq htc
    cases queue with
    | nil =>
      replace h : some (st, o2n) = some (st1, o2nF) := h
      cases h
      refine ⟨hds, fun x hx => hx, ?_, ?_⟩
      · intro x hx
        exact absurd hx (List.not_mem_nil x)
      · intro p hp cid hcid e he
        rcases htc p hp cid hcid e he with hs | hmem
        · exact hs
        · exact absurd hmem (List.not_mem_nil _)
    | cons cur queue' =>
      rw [dupPhase1_succ_cons] at h
      cases hal : (alistGet cur o2n).isSome with
      | true =>
        rw [hal, if_pos rfl] at h
        have htc' : ∀ p ∈ o2n, ∀ cid : Nat, p.1 = some cid →
            ∀ e ∈ (getNode st0 cid).next,
              (alistGet e.2 o2n).isSome ∨ e.2 ∈ queue' := by
          intro p hp cid hcid e he
          rcases htc p hp cid hcid e he with hs | hmem
          · exact Or.inl hs
          · rcases List.mem_cons.mp hmem with hc | hmem'
            · left
              rw [hc]
              exact hal
            · exact Or.inr hmem'
        obtain ⟨hds', hmono, hqF, hclo⟩ := ih st o2n queue' st1 o2nF h hds
          (fun x hx => hq x (List.mem_cons_of_mem _ hx)) htc'
        refine ⟨hds', hmono, ?_, hclo⟩
        intro x hx
        rcases List.mem_cons.mp hx with hc | hx'
        · subst hc
          exact hmono x hal
        · exact hqF x hx'
      | false =>
        rw [hal, if_neg Bool.false_ne_true] at h
        have halv : alistGet cur o2n = none := by
          cases hv : alistGet cur o2n with
          | none => rfl
          | some v =>
            rw [hv] at hal
            cases hal
        cases cur with
        | none =>
          replace h : dupPhase1 fuel st (o2n ++ [(none, none)]) queue'
              = some (st1, o2nF) := h
          obtain ⟨h1, h2, h3, h4, h5, h6, h7, h8⟩ := hds
          have hvals : (o2n ++ [((none : Option Nat), (none : Option Nat))]).filterMap
              (fun p => p.2) = o2n.filterMap (fun p => p.2) := by
            simp
          have hds' : DupState st0 st (o2n ++ [(none, none)]) := by
            refine ⟨h1, h2, h3, h4, ?_, ?_, ?_, ?_⟩
            · intro p hp
              rcases List.mem_append.mp hp with hp1 | hp2
              · exact h5 p hp1
              · rcases List.mem_singleton.mp hp2 with rfl
                intro j hj
                cases hj
            · intro p hp
              rcases List.mem_append.mp hp with hp1 | hp2
              · exact h6 p hp1
              · rcases List.mem_singleton.mp hp2 with rfl
                refine ⟨fun _ => rfl, ?_⟩
                intro cid hcid
                cases hcid
            · rw [hvals]
              exact h7
            · rw [hvals]
              exact h8
          have hqm : alistGet (none : Option Nat) (o2n ++ [(none, none)])
              = some none := by
            rw [alistGet_append_of_none _ _ _ halv]
            show (if (none : Option Nat) = none then some (none : Option Nat)
              else alistGet none []) = some none
            rw [if_pos rfl]
          have htc' : ∀ p ∈ o2n ++ [((none : Option Nat), (none : Option Nat))],
              ∀ cid : Nat, p.1 = some cid → ∀ e ∈ (getNode st0 cid).next,
                (alistGet e.2 (o2n ++ [(none, none)])).isSome ∨ e.2 ∈ queue' := by
            intro p hp cid hcid e he
            rcases List.mem_append.mp hp with hp1 | hp2
            · rcases htc p hp1 cid hcid e he with hs | hmem
              · exact Or.inl (alistGet_append_isSome _ _ _ hs)
              · rcases List.mem_cons.mp hmem with hc | hmem'
                · left
                  rw [hc, hqm]
                  rfl
                · exact Or.inr hmem'
            · rcases List.mem_singleton.mp hp2 with rfl
              cases hcid
          obtain ⟨hds'', hmono, hqF, hclo⟩ := ih st _ queue' st1 o2nF h hds'
            (fun x hx => hq x (List.mem_cons_of_mem _ hx)) htc'
          refine ⟨hds'', ?_, ?_, hclo⟩
          · intro x hx
            exact hmono x (alistGet_append_isSome _ _ _ hx)
          · intro x hx
            rcases List.mem_cons.mp hx with hc | hx'
            · subst hc
              refine hmono none ?_
              rw [hqm]
              rfl
            · exact hqF x hx'
        | some cid =>
          replace h : dupPhase1 fuel (dupVisit st cid).1
              (o2n ++ [(some cid, some (dupVisit st cid).2)])
              (queue' ++ (getNode st cid).next.map (·.2)) = some (st1, o2nF) := h
          obtain ⟨h1, h2, h3, h4, h5, h6, h7, h8⟩ := hds
          have hcid0 : cid ∈ Ids st0 := hq (some cid) (List.mem_cons_self _ _) cid rfl
          have hgn : getNode st cid = getNode st0 cid := h2 cid hcid0
          have hfr : FreshOk st := h1.2.2.2
          have hsv := stepTo_dupVisit st cid h1
          have hnew0 : st.nextId ∉ Ids st0 := fun hmem =>
            absurd (Nat.lt_of_lt_of_le (hst0.2.2.2 _ hmem) h4) (Nat.lt_irrefl _)
          have hvals : (o2n ++ [((some cid : Option Nat),
              some (dupVisit st cid).2)]).filterMap (fun p => p.2)
              = o2n.filterMap (fun p => p.2) ++ [st.nextId] := by
            simp [dupVisit, create_node]
          have hds' : DupState st0 (dupVisit st cid).1
              (o2n ++ [(some cid, some (dupVisit st cid).2)]) := by
            refine ⟨hsv.1.1, ?_, ?_, ?_, ?_, ?_, ?_, ?_⟩
            · intro i hi
              rw [getNode_dupVisit_other st cid i (fun he => hnew0 (he ▸ hi))]
              exact h2 i hi
            · intro i hi
              rw [Ids_dupVisit]
              exact List.mem_append.mpr (Or.inl (h3 i hi))
            · rw [nextId_dupVisit]
              exact Nat.le_succ_of_le h4
            · intro p hp
              rcases List.mem_append.mp hp with hp1 | hp2
              · exact h5 p hp1
              · rcases List.mem_singleton.mp hp2 with rfl
                intro j hj
                cases hj
                exact hcid0
            · intro p hp
              rcases List.mem_append.mp hp with hp1 | hp2
              · obtain ⟨hn1, hn2⟩ := h6 p hp1
                refine ⟨hn1, ?_⟩
                intro cid' hcid'
                obtain ⟨nid, hv, hni, hmem, hcontent⟩ := hn2 cid' hcid'
                have hne : nid ≠ st.nextId := by
                  have hvin : nid ∈ o2n.filterMap (fun p => p.2) :=
                    List.mem_filterMap.mpr ⟨p, hp1, hv⟩
                  exact Nat.ne_of_lt (h8 nid hvin)
                refine ⟨nid, hv, hni, ?_, ?_⟩
                · rw [Ids_dupVisit]
                  exact List.mem_append.mpr (Or.inl hmem)
                · rw [getNode_dupVisit_other st cid nid hne]
                  exact hcontent
              · rcases List.mem_singleton.mp hp2 with rfl
                refine ⟨?_, ?_⟩
                · intro hcontra
                  cases hcontra
                intro cid' hcid'
                cases hcid'
                refine ⟨st.nextId, rfl, hnew0, ?_, ?_⟩
                · rw [Ids_dupVisit]
                  exact List.mem_append_right _ (List.mem_singleton_self _)
                · rw [getNode_dupVisit_self st cid hfr, hgn]
            · rw [hvals, List.pairwise_append]
              refine ⟨h7, List.pairwise_singleton _ _, ?_⟩
              intro a ha b hb
              rcases List.mem_singleton.mp hb with rfl
              exact h8 a ha
            · rw [hvals]
              intro v hv
              rw [nextId_dupVisit]
              rcases List.mem_append.mp hv with hv1 | hv2
              · exact Nat.lt_succ_of_lt (h8 v hv1)
              · rcases List.mem_singleton.mp hv2 with rfl
                exact Nat.lt_succ_self _
          have hqm : alistGet (some cid : Option Nat)
              (o2n ++ [(some cid, some (dupVisit st cid).2)])
              = some (some (dupVisit st cid).2) := by
            rw [alistGet_append_of_none _ _ _ halv]
            show (if (some cid : Option Nat) = some cid
              then some (some (dupVisit st cid).2)
              else alistGet (some cid) []) = some (some (dupVisit st cid).2)
            rw [if_pos rfl]
          have hq' : ∀ x ∈ queue' ++ (getNode st cid).next.map (·.2),
              TgtOk st0 x := by
            intro x hx
            rcases List.mem_append.mp hx with hx1 | hx2
            · exact hq x (List.mem_cons_of_mem _ hx1)
            · obtain ⟨e, he, hxe⟩ := List.mem_map.mp hx2
              rw [← hxe]
              rw [hgn] at he
              exact tgtOk_of_edge st0 hst0.2.1 cid e he
          have htc' : ∀ p ∈ o2n ++ [((some cid : Option Nat),
                some (dupVisit st cid).2)],
              ∀ cid' : Nat, p.1 = some cid' → ∀ e ∈ (getNode st0 cid').next,
                (alistGet e.2 (o2n ++ [(some cid,
                  some (dupVisit st cid).2)])).isSome
                  ∨ e.2 ∈ queue' ++ (getNode st cid).next.map (·.2) := by
            intro p hp cid' hcid' e he
            rcases List.mem_append.mp hp with hp1 | hp2
            · rcases htc p hp1 cid' hcid' e he with hs | hmem
              · exact Or.inl (alistGet_append_isSome _ _ _ hs)
              · rcases List.mem_cons.mp hmem with hc | hmem'
                · left
                  rw [hc, hqm]
                  rfl
                · exact Or.inr (List.mem_append.mpr (Or.inl hmem'))
            · rcases List.mem_singleton.mp hp2 with rfl
              cases hcid'
              right
              refine List.mem_append.mpr (Or.inr ?_)
              rw [hgn]
              exact List.mem_map.mpr ⟨e, he, rfl⟩
          obtain ⟨hds'', hmono, hqF, hclo⟩ := ih (dupVisit st cid).1 _ _ st1 o2nF
            h hds' hq' htc'
          refine ⟨hds'', ?_, ?_, hclo⟩
          · intro x hx
            exact hmono x (alistGet_append_isSome _ _ _ hx)
          · intro x hx
            rcases List.mem_cons.mp hx with hc | hx'
            · subst hc
              refine hmono (some cid) ?_
              rw [hqm]
              rfl
            · exact hqF x (List.mem_append.mpr (Or.inl hx'))

end Tokex2Proof

namespace Tokex2Proof

/-- Per-entry precondition for phase two of `duplicate_expression`:
null maps to null, and an original id maps to a stored fresh clone that
still has no edges. -/
def DupRestOk (st0 st : Tokex) (p : Option Nat × Option Nat) : Prop :=
  (p.1 = none → p.2 = none)
  ∧ ∀ oid : Nat, p.1 = some oid → oid ∈ Ids st0
      ∧ ∃ nid : Nat, p.2 = some nid ∧ nid ∉ Ids st0 ∧ nid ∈ Ids st
          ∧ (getNode st nid).next = []

/-- Summary of phase two of `duplicate_expression`: every node that is
not one of the processed clones is untouched, and every processed clone
receives exactly the mapped copy of its original's edges. -/
theorem dupPhase2_master (st0 : Tokex) (o2n : List (Option Nat × Option Nat)) :
    ∀ (rest : List (Option Nat × Option Nat)) (st st2 : Tokex),
      dupPhase2 st o2n rest = some st2 →
      (∀ i ∈ Ids st0, getNode st i = getNode st0 i) →
      (∀ p ∈ rest, DupRestOk st0 st p) →
      ((rest.filterMap (fun p => p.2)).Pairwise (· < ·)) →
      (∀ i : Nat, (∀ p ∈ rest, p.2 ≠ some i) → getNode st2 i = getNode st i)
      ∧ (∀ p ∈ rest, ∀ oid nid : Nat, p.1 = some oid → p.2 = some nid →
          ∃ m', dupMapEdges o2n ((getNode st0 oid).next) [] = some m'
            ∧ getNode st2 nid = { getNode st nid with next := m' }) := by
  intro rest
  induction rest with
  | nil =>
    intro st st2 h hpres hrest hpw
    replace h : some st = some st2 := h
    cases h
    exact ⟨fun i _ => rfl, fun p hp => absurd hp (List.not_mem_nil p)⟩
  | cons q rest' ih =>
    intro st st2 h hpres hrest hpw
    obtain ⟨old, newO⟩ := q
    cases old with
    | none =>
      have hnn : newO = none := (hrest (none, newO) (List.mem_cons_self _ _)).1 rfl
      subst hnn
      replace h : dupPhase2 st o2n rest' = some st2 := h
      replace hpw : (rest'.filterMap (fun p => p.2)).Pairwise (· < ·) := hpw
      obtain ⟨hu, hper⟩ := ih st st2 h hpres
        (fun p hp => hrest p (List.mem_cons_of_mem _ hp)) hpw
      refine ⟨?_, ?_⟩
      · intro i hi
        exact hu i (fun p hp => hi p (List.mem_cons_of_mem _ hp))
      · intro p hp oid nid hoid hnid
        rcases List.mem_cons.mp hp with hq | hp'
        · rw [hq] at hoid
          cases hoid
        · exact hper p hp' oid nid hoid hnid
    | some oid0 =>
      obtain ⟨hoid0Ids, nid0, hnid0eq, hnid0fresh, hnid0mem, hnid0next⟩ :=
        (hrest (some oid0, newO) (List.mem_cons_self _ _)).2 oid0 rfl
      subst hnid0eq
      replace h : (match dupEdges st o2n nid0 ((getNode st oid0).next) with
          | none => none
          | some st₁ => dupPhase2 st₁ o2n rest') = some st2 := h
      cases hde : dupEdges st o2n nid0 ((getNode st oid0).next) with
      | none =>
        rw [hde] at h
        cases h
      | some st₁ =>
        rw [hde] at h
        obtain ⟨hids1, hu1, m', hbuild, hclone⟩ :=
          dupEdges_spec o2n nid0 _ st st₁ hde hnid0mem
        replace hpw : (nid0 :: rest'.filterMap (fun p => p.2)).Pairwise (· < ·) := hpw
        obtain ⟨hlt, hpwTail⟩ := List.pairwise_cons.mp hpw
        have hpres₁ : ∀ i ∈ Ids st0, getNode st₁ i = getNode st0 i := by
          intro i hi
          have hine : i ≠ nid0 := fun he => hnid0fresh (he ▸ hi)
          rw [hu1 i hine]
          exact hpres i hi
        have hrest₁ : ∀ p ∈ rest', DupRestOk st0 st₁ p := by
          intro p hp
          obtain ⟨ha, hb⟩ := hrest p (List.mem_cons_of_mem _ hp)
          refine ⟨ha, ?_⟩
          intro oid hoid
          obtain ⟨hoidIds, nid, hnideq, hnidfresh, hnidmem, hnidnext⟩ := hb oid hoid
          have hmemv : nid ∈ rest'.filterMap (fun p => p.2) :=
            List.mem_filterMap.mpr ⟨p, hp, hnideq⟩
          have hnene : nid ≠ nid0 := by
            intro he
            rw [he] at hmemv
            exact absurd (hlt nid0 hmemv) (Nat.lt_irrefl _)
          refine ⟨hoidIds, nid, hnideq, hnidfresh, ?_, ?_⟩
          · rw [hids1]
            exact hnidmem
          · rw [hu1 nid hnene]
            exact hnidnext
        obtain ⟨hu2, hper2⟩ := ih st₁ st2 h hpres₁ hrest₁ hpwTail
        refine ⟨?_, ?_⟩
        · intro i hi
          have hine : i ≠ nid0 := by
            intro he
            exact hi (some oid0, some nid0) (List.mem_cons_self _ _) (by rw [he])
          rw [hu2 i (fun p hp => hi p (List.mem_cons_of_mem _ hp)), hu1 i hine]
        · intro p hp oid nid hoid hnid
          rcases List.mem_cons.mp hp with hq | hp'
          · rw [hq] at hoid hnid
            cases hoid
            cases hnid
            refine ⟨m', ?_, ?_⟩
            · rw [hpres oid0 hoid0Ids, hnid0next] at hbuild
              exact hbuild
            · have hunt : getNode st2 nid0 = getNode st₁ nid0 := by
                refine hu2 nid0 ?_
                intro p' hp' hcontra
                have hmemv : nid0 ∈ rest'.filterMap (fun p => p.2) :=
                  List.mem_filterMap.mpr ⟨p', hp', hcontra⟩
                exact absurd (hlt nid0 hmemv) (Nat.lt_irrefl _)
              rw [hunt, hclone]
          · obtain ⟨m'', hb2, hcl2⟩ := hper2 p hp' oid nid hoid hnid
            have hmemv : nid ∈ rest'.filterMap (fun p => p.2) :=
              List.mem_filterMap.mpr ⟨p, hp', hnid⟩
            have hnene : nid ≠ nid0 := by
              intro he
              rw [he] at hmemv
              exact absurd (hlt nid0 hmemv) (Nat.lt_irrefl _)
            refine ⟨m'', hb2, ?_⟩
            rw [hcl2, hu1 nid hnene]

end Tokex2Proof

namespace Tokex2Proof

/-- One step of the clone simulation: from map-related states, both
machines either die together or step to map-related states. -/
theorem dupSim_step (st0 st2 : Tokex) (o2n : List (Option Nat × Option Nat))
    (CF : ∀ cid nid : Nat, alistGet (some cid) o2n = some (some nid) →
      (getNode st2 nid).ty = (getNode st0 cid).ty
      ∧ ∀ k : Char, mapFind k (getNode st2 nid).next
          = (mapFind k (getNode st0 cid).next).bind (fun t => alistGet t o2n))
    (CLM : ∀ p ∈ o2n, ∀ cid : Nat, p.1 = some cid →
      ∀ e ∈ (getNode st0 cid).next, (alistGet e.2 o2n).isSome)
    (NN : ∀ p ∈ o2n, p.1 = none → p.2 = none)
    (SS : ∀ p ∈ o2n, ∀ cid : Nat, p.1 = some cid → ∃ nid : Nat, p.2 = some nid)
    (cid nid : Nat) (hm : alistGet (some cid) o2n = some (some nid)) (c : Char) :
    (runStep st0 (some cid) c false = none ∧ runStep st2 (some nid) c false = none)
    ∨ ∃ cid' nid' : Nat, runStep st0 (some cid) c false = some cid'
        ∧ runStep st2 (some nid) c false = some nid'
        ∧ alistGet (some cid') o2n = some (some nid') := by
  obtain ⟨hty, hfind⟩ := CF cid nid hm
  have hmem := alistGet_mem _ _ _ hm
  have hkey : ∀ k : Char,
      (mapFind k (getNode st0 cid).next = none
        ∧ mapFind k (getNode st2 nid).next = none)
      ∨ (∃ t v, mapFind k (getNode st0 cid).next = some t
          ∧ mapFind k (getNode st2 nid).next = some v
          ∧ ((t = none ∧ v = none)
              ∨ ∃ tid nid' : Nat, t = some tid ∧ v = some nid'
                  ∧ alistGet (some tid) o2n = some (some nid'))) := by
    intro k
    cases hf : mapFind k (getNode st0 cid).next with
    | none =>
      left
      refine ⟨rfl, ?_⟩
      rw [hfind k, hf]
      rfl
    | some t =>
      right
      have he : (k, t) ∈ (getNode st0 cid).next := mapFind_mem _ _ _ hf
      have hsome : (alistGet t o2n).isSome := CLM _ hmem cid rfl (k, t) he
      cases hv : alistGet t o2n with
      | none =>
        rw [hv] at hsome
        cases hsome
      | some v =>
        refine ⟨t, v, rfl, ?_, ?_⟩
        · rw [hfind k, hf]
          exact hv
        · cases t with
          | none =>
            left
            exact ⟨rfl, NN _ (alistGet_mem _ _ _ hv) rfl⟩
          | some tid =>
            right
            obtain ⟨nid', hv'⟩ := SS _ (alistGet_mem _ _ _ hv) tid rfl
            replace hv' : v = some nid' := hv'
            refine ⟨tid, nid', rfl, hv', ?_⟩
            rw [hv, hv']
  have e0 : runStep st0 (some cid) c false
      = runStepNode (getNode st0 cid) c false := rfl
  have e2 : runStep st2 (some nid) c false
      = runStepNode (getNode st2 nid) c false := rfl
  rw [e0, e2]
  rcases hkey c with ⟨hc0, hc2⟩ | ⟨t, v, hc0, hc2, hrel⟩
  · rcases hkey wildC with ⟨hw0, hw2⟩ | ⟨t, v, hw0, hw2, hrel⟩
    · left
      constructor
      · show runStepNode (getNode st0 cid) c false = none
        unfold runStepNode
        simp only [hc0, hw0]
        rfl
      · show runStepNode (getNode st2 nid) c false = none
        unfold runStepNode
        simp only [hc2, hw2]
        rfl
    · have r0 : runStepNode (getNode st0 cid) c false = t := by
        unfold runStepNode
        simp only [hc0, hw0]
      have r2 : runStepNode (getNode st2 nid) c false = v := by
        unfold runStepNode
        simp only [hc2, hw2]
      rcases hrel with ⟨ht, hv⟩ | ⟨tid, nid', ht, hv, hmm⟩
      · left
        rw [r0, r2, ht, hv]
        exact ⟨rfl, rfl⟩
      · right
        exact ⟨tid, nid', by rw [r0, ht], by rw [r2, hv], hmm⟩
  · have r0 : runStepNode (getNode st0 cid) c false = t := by
      unfold runStepNode
      simp only [hc0]
    have r2 : runStepNode (getNode st2 nid) c false = v := by
      unfold runStepNode
      simp only [hc2]
    rcases hrel with ⟨ht, hv⟩ | ⟨tid, nid', ht, hv, hmm⟩
    · left
      rw [r0, r2, ht, hv]
      exact ⟨rfl, rfl⟩
    · right
      exact ⟨tid, nid', by rw [r0, ht], by rw [r2, hv], hmm⟩

/-- Whole-run clone simulation. -/
theorem dupSim_run (st0 st2 : Tokex) (o2n : List (Option Nat × Option Nat))
    (CF : ∀ cid nid : Nat, alistGet (some cid) o2n = some (some nid) →
      (getNode st2 nid).ty = (getNode st0 cid).ty
      ∧ ∀ k : Char, mapFind k (getNode st2 nid).next
          = (mapFind k (getNode st0 cid).next).bind (fun t => alistGet t o2n))
    (CLM : ∀ p ∈ o2n, ∀ cid : Nat, p.1 = some cid →
      ∀ e ∈ (getNode st0 cid).next, (alistGet e.2 o2n).isSome)
    (NN : ∀ p ∈ o2n, p.1 = none → p.2 = none)
    (SS : ∀ p ∈ o2n, ∀ cid : Nat, p.1 = some cid → ∃ nid : Nat, p.2 = some nid)
    (s : List Char) :
    ∀ cid nid : Nat, alistGet (some cid) o2n = some (some nid) →
      (runList st0 (some cid) s false = none ∧ runList st2 (some nid) s false = none)
      ∨ ∃ cid' nid' : Nat, runList st0 (some cid) s false = some cid'
          ∧ runList st2 (some nid) s false = some nid'
          ∧ alistGet (some cid') o2n = some (some nid') := by
  induction s with
  | nil =>
    intro cid nid hm
    right
    exact ⟨cid, nid, rfl, rfl, hm⟩
  | cons c cs ih =>
    intro cid nid hm
    have h1 : runList st0 (some cid) (c :: cs) false
        = runList st0 (runStep st0 (some cid) c false) cs false := rfl
    have h2 : runList st2 (some nid) (c :: cs) false
        = runList st2 (runStep st2 (some nid) c false) cs false := rfl
    rw [h1, h2]
    rcases dupSim_step st0 st2 o2n CF CLM NN SS cid nid hm c with
      ⟨hs0, hs2⟩ | ⟨cid', nid', hs0, hs2, hm'⟩
    · left
      rw [hs0, hs2, runList_none, runList_none]
      exact ⟨rfl, rfl⟩
    · rw [hs0, hs2]
      exact ih cid' nid' hm'

/-- C7: `duplicate_expression` on an invariant state clones the
reachable fragment faithfully: it returns the clone map under which the
fragment entry maps to the returned new entry, null maps to null, every
cloned node is a fresh node carrying the original's type and script and
the original's transitions with every target sent through the map, and
the original fragment and its duplicate produce the same observation —
in particular the same accept/reject verdict — on every input
sequence. -/
theorem claim_C7_duplicate_faithful (fuel : Nat) (st : Tokex) (first : Option Nat)
    (st' : Tokex) (newFirst : Option Nat) (hst : Inv st) (hfirst : TgtOk st first)
    (hwf : ∀ i : Nat, ((getNode st i).next.map Prod.fst).Nodup)
    (h : duplicate_expression fuel st first = some (st', newFirst)) :
    ∃ o2n : List (Option Nat × Option Nat),
      alistGet first o2n = some newFirst
      ∧ (∀ p ∈ o2n, p.1 = none → p.2 = none)
      ∧ (∀ cid nid : Nat, alistGet (some cid) o2n = some (some nid) →
          nid ∉ Ids st
          ∧ (getNode st' nid).ty = (getNode st cid).ty
          ∧ (getNode st' nid).script = (getNode st cid).script
          ∧ ∀ k : Char, mapFind k (getNode st' nid).next
              = (mapFind k (getNode st cid).next).bind (fun t => alistGet t o2n))
      ∧ (∀ s : List Char,
          get_state st' (runList st' newFirst s false)
            = get_state st (runList st first s false)) := by
  unfold duplicate_expression at h
  cases hp1 : dupPhase1 fuel st [] [first] with
  | none =>
    rw [hp1] at h
    cases h
  | some p =>
    obtain ⟨stP, o2n⟩ := p
    rw [hp1] at h
    replace h : (match dupPhase2 stP o2n o2n with
        | none => none
        | some st₂ =>
          match alistGet first o2n with
          | none => none
          | some nf => some (st₂, nf)) = some (st', newFirst) := h
    obtain ⟨hds, _hmono, hqF, hclo⟩ := dupPhase1_master st hst fuel st [] [first]
      stP o2n hp1
      ⟨hst, fun i _ => rfl, fun i hi => hi, Nat.le_refl _,
        fun p hp => absurd hp (List.not_mem_nil p),
        fun p hp => absurd hp (List.not_mem_nil p),
        List.Pairwise.nil, fun v hv => absurd hv (List.not_mem_nil v)⟩
      (fun x hx => by
        rcases List.mem_singleton.mp hx with rfl
        exact hfirst)
      (fun p hp => absurd hp (List.not_mem_nil p))
    obtain ⟨hP1, hP2, hP3, hP4, hP5, hP6, hP7, hP8⟩ := hds
    cases hp2 : dupPhase2 stP o2n o2n with
    | none =>
      rw [hp2] at h
      cases h
    | some st₂ =>
      rw [hp2] at h
      cases hg : alistGet first o2n with
      | none =>
        rw [hg] at h
        cases h
      | some nf =>
        rw [hg] at h
        replace h : some (st₂, nf) = some (st', newFirst) := h
        cases h
        have hrestOk : ∀ p ∈ o2n, DupRestOk st stP p := by
          intro p hp
          refine ⟨(hP6 p hp).1, ?_⟩
          intro oid hoid
          obtain ⟨nid, hv, hfr', hmem', hcontent⟩ := (hP6 p hp).2 oid hoid
          refine ⟨hP5 p hp oid hoid, nid, hv, hfr', hmem', ?_⟩
          rw [hcontent]
        obtain ⟨hu, hper⟩ := dupPhase2_master st o2n o2n stP st' hp2 hP2 hrestOk hP7
        have hCF : ∀ cid nid : Nat, alistGet (some cid) o2n = some (some nid) →
            nid ∉ Ids st
            ∧ (getNode st' nid).ty = (getNode st cid).ty
            ∧ (getNode st' nid).script = (getNode st cid).script
            ∧ ∀ k : Char, mapFind k (getNode st' nid).next
                = (mapFind k (getNode st cid).next).bind (fun t => alistGet t o2n) := by
          intro cid nid hm
          have hmem := alistGet_mem _ _ _ hm
          obtain ⟨m', hbuild, hclone⟩ := hper _ hmem cid nid rfl rfl
          obtain ⟨nid₂, hv2, hfr2, hmem2, hcontent2⟩ := (hP6 _ hmem).2 cid rfl
          cases hv2
          refine ⟨hfr2, ?_, ?_, ?_⟩
          · rw [hclone]
            show (getNode stP nid).ty = (getNode st cid).ty
            rw [hcontent2]
          · rw [hclone]
            show (getNode stP nid).script = (getNode st cid).script
            rw [hcontent2]
          · intro k
            rw [hclone]
            show mapFind k m'
              = (mapFind k (getNode st cid).next).bind (fun t => alistGet t o2n)
            have hfind := dupMapEdges_find o2n ((getNode st cid).next) (hwf cid)
              [] m' hbuild k
            rw [hfind]
            cases hf : mapFind k (getNode st cid).next with
            | none => rfl
            | some t => rfl
        have hNN : ∀ p ∈ o2n, p.1 = none → p.2 = none := fun p hp => (hP6 p hp).1
        have hSS : ∀ p ∈ o2n, ∀ cid : Nat, p.1 = some cid →
            ∃ nid : Nat, p.2 = some nid := by
          intro p hp cid hcid
          obtain ⟨nid, hv, _⟩ := (hP6 p hp).2 cid hcid
          exact ⟨nid, hv⟩
        have hCF' : ∀ cid nid : Nat, alistGet (some cid) o2n = some (some nid) →
            (getNode st' nid).ty = (getNode st cid).ty
            ∧ ∀ k : Char, mapFind k (getNode st' nid).next
                = (mapFind k (getNode st cid).next).bind (fun t => alistGet t o2n) :=
          fun cid nid hm => ⟨(hCF cid nid hm).2.1, (hCF cid nid hm).2.2.2⟩
        refine ⟨o2n, hg, hNN, hCF, ?_⟩
        intro s
        cases first with
        | none =>
          have hnn : newFirst = none := hNN _ (alistGet_mem _ _ _ hg) rfl
          rw [hnn, runList_none, runList_none]
          rfl
        | some fid =>
          obtain ⟨nfid, hv⟩ := hSS _ (alistGet_mem _ _ _ hg) fid rfl
          subst hv
          rcases dupSim_run st st' o2n hCF' hclo hNN hSS s fid nfid hg with
            ⟨hr0, hr2⟩ | ⟨cid', nid', hr0, hr2, hm'⟩
          · rw [hr0, hr2]
            rfl
          · rw [hr0, hr2]
            show (getNode st' nid').ty = (getNode st cid').ty
            exact (hCF' cid' nid' hm').1

end Tokex2Proof

namespace Tokex2Proof

/-- The pipeline invariant holds for the compiled `'a'` machine. -/
theorem Inv_c5T : Inv c5T := by
  refine ⟨by decide, ?_, ?_, ?_⟩
  · intro p hp e he j hej
    rcases List.mem_cons.mp hp with rfl | hp1
    · rcases List.mem_cons.mp he with rfl | he1
      · cases hej
        decide
      · exact absurd he1 (List.not_mem_nil e)
    · rcases List.mem_cons.mp hp1 with rfl | hp2
      · exact absurd he (List.not_mem_nil e)
      · exact absurd hp2 (List.not_mem_nil p)
  · intro i
    by_cases h0 : i = 0
    · subst h0
      left
      decide
    by_cases h1 : i = 1
    · subst h1
      right
      decide
    · left
      have hnone : storeGet i c5T.store = none := by
        simp [c5T, storeGet, h0, h1]
      have hdef : getNode c5T i = {} := by
        unfold getNode
        rw [hnone]
      rw [hdef]
  · show ∀ j ∈ Ids c5T, j < c5T.nextId
    decide

/-- Every node of the compiled `'a'` machine has duplicate-free edge
keys. -/
theorem c5T_edges_nodup : ∀ i : Nat, ((getNode c5T i).next.map Prod.fst).Nodup := by
  intro i
  by_cases h0 : i = 0
  · subst h0
    decide
  by_cases h1 : i = 1
  · subst h1
    decide
  · have hnone : storeGet i c5T.store = none := by
      simp [c5T, storeGet, h0, h1]
    have hdef : getNode c5T i = {} := by
      unfold getNode
      rw [hnone]
    rw [hdef]
    exact List.nodup_nil

/-- The duplicate of the compiled `'a'` machine's fragment. -/
def c7Dup : Tokex :=
  { store :=
      [(0, { ty := NodeType.normal, next := [('a', some 1)], script := [] }),
       (1, { ty := NodeType.end_, next := [], script := [] }),
       (2, { ty := NodeType.normal, next := [('a', some 3)], script := [] }),
       (3, { ty := NodeType.end_, next := [], script := [] })],
    nextId := 4, beginning := some 0, allNodes := [0, 1, 2, 3] }

/-- Witness: duplicating the compiled `'a'` machine's fragment succeeds
and the theorem applies to it. -/
theorem claim_C7_duplicate_faithful_witness :
    duplicate_expression 20 c5T (some 0) = some (c7Dup, some 2)
    ∧ ∃ o2n : List (Option Nat × Option Nat),
        alistGet (some 0) o2n = some (some 2)
        ∧ (∀ p ∈ o2n, p.1 = none → p.2 = none)
        ∧ (∀ cid nid : Nat, alistGet (some cid) o2n = some (some nid) →
            nid ∉ Ids c5T
            ∧ (getNode c7Dup nid).ty = (getNode c5T cid).ty
            ∧ (getNode c7Dup nid).script = (getNode c5T cid).script
            ∧ ∀ k : Char, mapFind k (getNode c7Dup nid).next
                = (mapFind k (getNode c5T cid).next).bind (fun t => alistGet t o2n))
        ∧ (∀ s : List Char,
            get_state c7Dup (runList c7Dup (some 2) s false)
              = get_state c5T (runList c5T (some 0) s false)) :=
  ⟨by decide,
    claim_C7_duplicate_faithful 20 c5T (some 0) c7Dup (some 2) Inv_c5T
      (fun j hj => by
        cases hj
        decide)
      c5T_edges_nodup (by decide)⟩

end Tokex2Proof

namespace Tokex2Proof

/-! The lexer adapter `RegexLexer` (its constructor), over the compiled
machine. `DFAState` is modelled as `Nat`; the dense `n_states × 256`
table is modelled as a function from state and character index to
state, initialized to zero as `dfa.assign(n_states * n_chars, 0)`
does. -/

/-- The table's character index: C++ `char` is signed, and the adapter
offsets it by `ctype_offset = -CHAR_MIN = 128`. -/
def lexCharIdx (c : Char) : Nat := (c.toNat + 128) % 256

/-- Position of a node in the iteration order, i.e. the value the
`names` map assigns to it (`names[node] = names.size()` inserts nodes
at consecutive indices in iteration order). -/
def idxOf (x : Option Nat) : List (Option Nat) → Option Nat
  | [] => none
  | y :: rest => if x = y then some 0 else (idxOf x rest).map (· + 1)

/-- The machine's node set in `std::set<Node*>` iteration order:
ascending pointer value, i.e. a null pointer (if reachable) first, then
ascending allocation id. -/
def lexNodeList (st : Tokex) : List (Option Nat) :=
  let l := get_all_nodes st
  (if l.contains none then [none] else []) ++ (sortNat (l.filterMap id)).map some

/-- Translate the edges of one node into table writes: an edge from an
end-typed node back to the entry is written as the delimiter state
`dl`, every other edge as the target's index (`names.at` throws if the
target was never named). -/
def lexEdges (entry : Option Nat) (nodes : List (Option Nat)) (curState : Nat)
    (curTy : NodeType) (dl : Nat) :
    List (Char × Option Nat) → (Nat → Nat → Nat) → Option (Nat → Nat → Nat)
  | [], t => some t
  | (k, tgt) :: rest, t =>
    if tgt = entry ∧ curTy = NodeType.end_ then
      lexEdges entry nodes curState curTy dl rest
        (fun s ci => if s = curState ∧ ci = lexCharIdx k then dl else t s ci)
    else
      match idxOf tgt nodes with
      | none => none
      | some toIdx =>
        lexEdges entry nodes curState curTy dl rest
          (fun s ci => if s = curState ∧ ci = lexCharIdx k then toIdx else t s ci)

/-- Translate every node of the iteration list. The source dereferences
each node pointer (`node->next`, `node->type`), so a null entry is
undefined behaviour. -/
def lexNodesFold (st : Tokex) (entry : Option Nat) (nodes : List (Option Nat))
    (dl : Nat) : List (Option Nat) → (Nat → Nat → Nat) → Option (Nat → Nat → Nat)
  | [], t => some t
  | x :: rest, t =>
    match x with
    | none => none
    | some cid =>
      match idxOf (some cid) nodes with
      | none => none
      | some curState =>
        match lexEdges entry nodes curState (getNode st cid).ty dl
            ((getNode st cid).next) t with
        | none => none
        | some t' => lexNodesFold st entry nodes dl rest t'

/-- `RegexLexer::RegexLexer`: name the nodes in iteration order, set
`delim_state` to the size of the then-empty map (always zero), fill the
table, and start in the entry's state. Returns the table, the delimiter
state and the initial state. -/
def lexBuild (st : Tokex) : Option ((Nat → Nat → Nat) × Nat × Nat) :=
  let nodes := lexNodeList st
  let delim : Nat := 0
  match lexNodesFold st st.beginning nodes delim nodes (fun _ _ => 0) with
  | none => none
  | some t =>
    match idxOf st.beginning nodes with
    | none => none
    | some s0 => some (t, delim, s0)

/-- The delimiter state and initial state of the built lexer. -/
def lexStates (st : Tokex) : Option (Nat × Nat) :=
  (lexBuild st).map (fun r => (r.2.1, r.2.2))

/-- C9 counterexample: the delimiter state is NOT distinct from every
real node's index. Already for the machine compiled from the pattern
`a`, the constructor sets `delim_state` to 0 — the size of the
still-empty `names` map — and then assigns index 0 to the first
iterated node, the entry, so the lexer starts in the delimiter
state. -/
theorem claim_C9_counterexample_delim_not_distinct :
    lexStates c5T = some (0, 0) := by decide

/-- C9 (amended): in the constructor's table the delimiter state is
always index 0, and it coincides with the index assigned to the entry
node whenever the entry heads the node iteration order (as it does for
every machine the compiler produces, the entry being the
lowest-addressed node); the intended distinctness does not hold. -/
theorem claim_C9_delim_is_entry_index (st : Tokex) (tb : Nat → Nat → Nat)
    (dl s0 : Nat) (h : lexBuild st = some (tb, dl, s0))
    (hhead : ∃ rest, lexNodeList st = st.beginning :: rest) :
    dl = 0 ∧ s0 = 0 := by
  obtain ⟨rest, hrest⟩ := hhead
  unfold lexBuild at h
  replace h : (match lexNodesFold st st.beginning (lexNodeList st) 0
        (lexNodeList st) (fun _ _ => 0) with
      | none => none
      | some t =>
        match idxOf st.beginning (lexNodeList st) with
        | none => none
        | some s1 => some (t, 0, s1)) = some (tb, dl, s0) := h
  cases hf : lexNodesFold st st.beginning (lexNodeList st) 0
      (lexNodeList st) (fun _ _ => 0) with
  | none =>
    rw [hf] at h
    cases h
  | some t =>
    rw [hf] at h
    replace h : (match idxOf st.beginning (lexNodeList st) with
        | none => none
        | some s1 => some (t, 0, s1)) = some (tb, dl, s0) := h
    have hidx : idxOf st.beginning (lexNodeList st) = some 0 := by
      rw [hrest]
      show (if st.beginning = st.beginning then some 0
        else (idxOf st.beginning rest).map (· + 1)) = some 0
      rw [if_pos rfl]
    rw [hidx] at h
    replace h : some (t, 0, 0) = some (tb, dl, s0) := h
    cases h
    exact ⟨rfl, rfl⟩

/-- The table the adapter builds for the machine compiled from `a`. -/
def c9Tb : Nat → Nat → Nat :=
  fun s ci => if s = 0 ∧ ci = lexCharIdx 'a' then 1 else 0

/-- Witness: the build on the compiled `a` machine succeeds, its entry
heads the iteration order, and the theorem applies to it. -/
theorem claim_C9_delim_is_entry_index_witness :
    lexBuild c5T = some (c9Tb, 0, 0)
    ∧ (∃ rest, lexNodeList c5T = c5T.beginning :: rest)
    ∧ ((0 : Nat) = 0 ∧ (0 : Nat) = 0) :=
  ⟨rfl, ⟨[some 1], by decide⟩,
    claim_C9_delim_is_entry_index c5T c9Tb 0 0 rfl ⟨[some 1], by decide⟩⟩

end Tokex2Proof
